import Mathlib

/-!
Verification development for the mywr in-process memory-manipulation
toolkit (x86 / Windows build), centred on the hook engine
(`mywr::hook::hook`), the page-protection guard
(`mywr::protect::scoped_protect`), the low-level memory operations
(`mywr::llmo`) and the prologue-length helper
(`mywr::hook::utility::get_at_least_n_bytes`).

The C++ code is shallowly embedded.  Addresses are 32-bit
(`address_t = uintptr_t` on the x86 build), so every address computation
is performed modulo `W = 2^32`.  Byte memory and the OS page-protection
state are modelled as functions from addresses to natural numbers.

External collaborators are modelled as oracles carried by the machine
state:
* the OS (`VirtualProtect` / `VirtualAlloc` / `VirtualFree`) is a set of
  clock-indexed oracles, one tick per OS call, so distinct calls can
  succeed or fail independently;
* the Zydis single-instruction decoder is a function from the bytes it
  can read (15 bytes, the maximal x86 instruction length) to a decoded
  instruction record — theorems that depend on how a near CALL/JMP
  decodes take an explicit faithfulness hypothesis (`RelDecoder`);
* the Xbyak emitter is embedded for the parts whose bytes the repository
  computes itself (the relocated trampoline instructions, emitted through
  `db`, and the leading near jump, forced to the 5-byte `E9 rel32` form
  by `T_NEAR`); the relay preamble and the trampoline's terminal jump are
  opaque byte strings supplied by the machine state;
* `std::vector` storage lives on the process heap, outside the patched
  code pages; its contents are modelled as Lean lists and its data
  pointer by a distinguished heap address.
-/

namespace Mywr

/-- The size of the 32-bit address space: `address_t` is `uintptr_t`,
a 32-bit unsigned integer on the x86 build, so all address arithmetic
in the source wraps modulo `W`. -/
def W : Nat := 4294967296

/-- Little-endian byte encoding of a 32-bit value, as an x86 store of a
`uint32_t` lays it out in memory. -/
def le32 (v : Nat) : List Nat :=
  [v % 256, v / 256 % 256, v / 65536 % 256, v / 16777216 % 256]

/-- Little-endian byte decoding: the value an x86 load of a `uint32_t`
reads from the first four bytes of the list. -/
def le32val (l : List Nat) : Nat :=
  l.getD 0 0 + 256 * l.getD 1 0 + 65536 * l.getD 2 0 + 16777216 * l.getD 3 0

/-- Read `n` consecutive bytes of memory starting at address `a`
(addresses wrap modulo `W`). -/
def readBytes (mem : Nat → Nat) (a n : Nat) : List Nat :=
  (List.range n).map fun i => mem ((a + i) % W)

/-- Store one byte at address `a` (the stored value is truncated to a
byte, as the hardware does). -/
def wrByte (mem : Nat → Nat) (a v : Nat) : Nat → Nat :=
  fun x => if x = a % W then v % 256 else mem x

/-- Store a list of bytes at consecutive addresses starting at `a`
(an x86 `memcpy` from a buffer of known contents). -/
def wrBytes : (Nat → Nat) → Nat → List Nat → (Nat → Nat)
  | mem, _, [] => mem
  | mem, a, b :: bs => wrBytes (wrByte mem a b) (a + 1) bs

/-- Whether address `x` lies in the wrap-around range of `n` addresses
starting at `a` (all modulo `W`); `x` is assumed reduced. -/
def inRangeW (x a n : Nat) : Bool :=
  if a % W + n ≤ W then decide (a % W ≤ x ∧ x < a % W + n)
  else decide (a % W ≤ x ∨ x < (a % W + n) % W)

/-- Overwrite `n` consecutive addresses starting at `a` with the constant
value `v` (an x86 `memset`, or a page-range protection change). -/
def wrRange (f : Nat → Nat) (a n v : Nat) : Nat → Nat :=
  fun x => if inRangeW x a n then v else f x

/-- 32-bit wrap-around subtraction, the effect of subtracting `address`
values in the source (`mywr::utility::get_relative_address` is built
from it). -/
def subW (a b : Nat) : Nat := (a % W + (W - b % W)) % W

/-- `mywr::utility::get_relative_address(destination, source, size)`:
`(destination - source).value() - size` in 32-bit arithmetic. -/
def get_relative_address (destination source size : Nat) : Nat :=
  subW (subW destination source) size

/-- `mywr::utility::restore_absolute_address(relative, base, size)`:
`(relative + base).value() + size` in 32-bit arithmetic. -/
def restore_absolute_address (relative base size : Nat) : Nat :=
  (relative + base + size) % W

/-! ## Protection kinds (`shared/protection_flags.hpp`) -/

/-- `mywr::protect::protection`, a `uint8_t` enum of protection kinds. -/
inductive protection where
  | None | NoAccess | Read | Write | Execute
  | ReadWrite | ReadExecute | ReadWriteExecute
  deriving DecidableEq, Repr

/-- The numeric enumerator values from the source:
`None = 1<<0, NoAccess = 1<<1, Read = 1<<2, Write = 1<<3, Execute = 1<<4`
and the three combinations by bitwise or. -/
def protVal : protection → Nat
  | .None => 1
  | .NoAccess => 2
  | .Read => 4
  | .Write => 8
  | .Execute => 16
  | .ReadWrite => 12
  | .ReadExecute => 20
  | .ReadWriteExecute => 28

/-- `operator&(protection, protection) -> uint8_t` from the source. -/
def protAnd (l r : protection) : Nat := Nat.land (protVal l) (protVal r)

/-! Windows page-protection DWORD constants used by the conversion
functions. -/

def PAGE_NOACCESS : Nat := 1
def PAGE_READONLY : Nat := 2
def PAGE_READWRITE : Nat := 4
def PAGE_WRITECOPY : Nat := 8
def PAGE_EXECUTE : Nat := 16
def PAGE_EXECUTE_READ : Nat := 32
def PAGE_EXECUTE_READWRITE : Nat := 64

/-- `mywr::protect::to_protection_constant` (Windows variant): the six
mapped `PAGE_*` constants, everything else — including `0`, the value a
zero-initialised out-parameter keeps when the OS call fails, and the
unmapped constants such as `PAGE_WRITECOPY` — collapses to `None`. -/
def to_protection_constant (p : Nat) : protection :=
  if p = PAGE_NOACCESS then .NoAccess
  else if p = PAGE_READONLY then .Read
  else if p = PAGE_READWRITE then .ReadWrite
  else if p = PAGE_EXECUTE then .Execute
  else if p = PAGE_EXECUTE_READ then .ReadExecute
  else if p = PAGE_EXECUTE_READWRITE then .ReadWriteExecute
  else .None

/-- `mywr::protect::from_protection_constant` (Windows variant). -/
def from_protection_constant : protection → Nat
  | .NoAccess => PAGE_NOACCESS
  | .Read => PAGE_READONLY
  | .Execute => PAGE_EXECUTE
  | .ReadWrite => PAGE_READWRITE
  | .ReadExecute => PAGE_EXECUTE_READ
  | .ReadWriteExecute => PAGE_EXECUTE_READWRITE
  | .Write => 0
  | .None => 0

/-! ## Decoded instructions and the machine state -/

/-- A decoded instruction, the observable surface of
`mywr::disassembler::instruction`: length, opcode byte, operand count,
the per-operand relative flag, and the absolute-address computation
`abs(runtime_address, operand)` delegated to Zydis. -/
structure Inst where
  length : Nat
  opcode : Nat
  operandCount : Nat
  isRel : Nat → Bool
  absA : Nat → Nat → Nat

/-- The machine: byte memory, the OS page-protection state (one
protection DWORD per address), the allocation map, and the oracles for
the external collaborators.  `clock` counts OS calls
(`VirtualProtect` / `VirtualAlloc` / `VirtualFree`), so the
success/failure oracles can distinguish separate calls. -/
structure Machine where
  mem : Nat → Nat
  prot : Nat → Nat
  allocated : Nat → Bool
  clock : Nat
  vpFail : Nat → Bool
  allocAt : Nat → Option Nat
  freeOk : Nat → Bool
  decoder : List Nat → Inst
  heapAddr : Nat
  termJmp : List Nat
  relayBytes : List Nat

/-- `mywr::protect::get_protect`: `VirtualQuery` the page of `a` and
convert its protection DWORD. -/
def get_protect (m : Machine) (a : Nat) : protection :=
  to_protection_constant (m.prot (a % W))

/-- `mywr::protect::set_protect`: one `VirtualProtect` call.  On failure
the zero-initialised out-parameter stays `0` and converts to `None`; on
success the range is re-protected and the previous DWORD of the first
page is converted and returned. -/
def set_protect (m : Machine) (a : Nat) (newp : protection) (size : Nat) :
    Machine × protection :=
  if m.vpFail m.clock then
    ({ m with clock := m.clock + 1 }, to_protection_constant 0)
  else
    ({ m with
        clock := m.clock + 1,
        prot := wrRange m.prot a size (from_protection_constant newp) },
      to_protection_constant (m.prot (a % W)))

/-- `mywr::protect::is_readable`. -/
def is_readable (m : Machine) (a : Nat) : Bool :=
  protAnd (get_protect m a) .Read == protVal .Read

/-- `mywr::protect::is_writeable`. -/
def is_writeable (m : Machine) (a : Nat) : Bool :=
  protAnd (get_protect m a) .Write == protVal .Write

/-- `mywr::protect::is_executable`. -/
def is_executable (m : Machine) (a : Nat) : Bool :=
  protAnd (get_protect m a) .Execute == protVal .Execute

/-- The fields of a live `mywr::protect::scoped_protect` guard:
`{m_address, m_size, m_protect}`.  When the constructor skips the
protection change because the address is invalid, `m_protect` stays
uninitialised and is never read (`valid()` short-circuits); the model
gives it the junk value `None`, which `valid()` then reports exactly as
the source does. -/
structure ScopedProtect where
  addr : Nat
  size : Nat
  protKind : protection

/-- The `scoped_protect` constructor: change the protection only when
the address is valid (non-zero). -/
def scopedAcquire (m : Machine) (a : Nat) (p : protection) (n : Nat) :
    Machine × ScopedProtect :=
  if a % W ≠ 0 then
    let r := set_protect m a p n
    (r.1, ⟨a, n, r.2⟩)
  else (m, ⟨a, n, .None⟩)

/-- `scoped_protect::valid()`: the address is valid and the stored prior
kind is not `None`. -/
def ScopedProtect.valid (s : ScopedProtect) : Bool :=
  s.addr % W ≠ 0 && s.protKind ≠ .None

/-- The `scoped_protect` destructor: restore the stored prior kind over
the stored size, but only when `valid()`. -/
def scopedRelease (m : Machine) (s : ScopedProtect) : Machine :=
  if s.valid then (set_protect m s.addr s.protKind s.size).1 else m

/-! ## Executable allocator (`internal/platform/windows/allocator.inl`) -/

/-- `mywr::allocator::allocate(size)`: one `VirtualAlloc` call with
`MEM_COMMIT | MEM_RESERVE` and `PAGE_EXECUTE_READWRITE`.  On success the
fresh pages are zeroed, protected RWX and marked allocated. -/
def allocate (m : Machine) (size : Nat) : Machine × Option Nat :=
  match m.allocAt m.clock with
  | none => ({ m with clock := m.clock + 1 }, none)
  | some a =>
      ({ m with
          clock := m.clock + 1,
          allocated := fun x => if x = a % W then true else m.allocated x,
          prot := wrRange m.prot a size PAGE_EXECUTE_READWRITE,
          mem := wrRange m.mem a size 0 },
        some (a % W))

/-- `mywr::allocator::deallocate(addr, size)`: one `VirtualFree` call
(`MEM_RELEASE`, the size argument is unused); returns whether it
succeeded. -/
def deallocate (m : Machine) (a : Nat) : Machine × Bool :=
  if m.freeOk m.clock then
    ({ m with
        clock := m.clock + 1,
        allocated := fun x => if x = a % W then false else m.allocated x },
      true)
  else ({ m with clock := m.clock + 1 }, false)

/-- `mywr::disassembler::disassembler::disassemble(code)`: the decoder
reads at most `ZYDIS_MAX_INSTRUCTION_LENGTH = 15` bytes at `code`. -/
def disassemble (m : Machine) (a : Nat) : Inst :=
  m.decoder (readBytes m.mem a 15)

/-! ## Low-level memory operations (`internal/llmo.hpp`)

The hook engine calls `read`, `write`, `copy` and `fill`.  Two of the
`copy` call sites have a `std::vector` on one side; since vector storage
is process heap outside the code pages, those call sites are embedded by
dedicated functions (`copyMemToHeap`, `copyHeapToMem`) whose check
sequence is exactly the source's `llmo::copy`, with the heap data
pointer modelled by `Machine.heapAddr`. -/

/-- `mywr::llmo::llmo_error`. -/
inductive llmo_error where
  | InvalidAddressError | InvalidProtectChangeError | UnreadableMemoryError
  | UnwriteableMemoryError | NullSizeError | InvalidDestinationError
  | InvalidSourceError
  deriving DecidableEq, Repr

/-- `mywr::llmo::read<byte_t>(address, unprotect)`.  Failure modes in
source order: invalid address; unreadable memory when `unprotect` is
false; protection-change failure when `unprotect` is true. -/
def readByteOp (m : Machine) (a : Nat) (unprotect : Bool) :
    Machine × Except llmo_error Nat :=
  if a % W = 0 then (m, .error .InvalidAddressError)
  else if !unprotect && !is_readable m a then
    (m, .error .UnreadableMemoryError)
  else if unprotect then
    let r := scopedAcquire m a .ReadWriteExecute 1
    if !r.2.valid then (scopedRelease r.1 r.2, .error .InvalidProtectChangeError)
    else (scopedRelease r.1 r.2, .ok (r.1.mem (a % W)))
  else (m, .ok (m.mem (a % W)))

/-- `mywr::llmo::read<uint32_t>(address, unprotect)` (little-endian). -/
def read32Op (m : Machine) (a : Nat) (unprotect : Bool) :
    Machine × Except llmo_error Nat :=
  if a % W = 0 then (m, .error .InvalidAddressError)
  else if !unprotect && !is_readable m a then
    (m, .error .UnreadableMemoryError)
  else if unprotect then
    let r := scopedAcquire m a .ReadWriteExecute 4
    if !r.2.valid then (scopedRelease r.1 r.2, .error .InvalidProtectChangeError)
    else (scopedRelease r.1 r.2, .ok (le32val (readBytes r.1.mem a 4)))
  else (m, .ok (le32val (readBytes m.mem a 4)))

/-- `mywr::llmo::write<byte_t>(address, value, unprotect)`. -/
def writeByteOp (m : Machine) (a v : Nat) (unprotect : Bool) :
    Machine × Option llmo_error :=
  if a % W = 0 then (m, some .InvalidAddressError)
  else if !unprotect && !is_writeable m a then
    (m, some .UnwriteableMemoryError)
  else if unprotect then
    let r := scopedAcquire m a .ReadWriteExecute 1
    if !r.2.valid then (scopedRelease r.1 r.2, some .InvalidProtectChangeError)
    else (scopedRelease { r.1 with mem := wrByte r.1.mem a v } r.2, none)
  else ({ m with mem := wrByte m.mem a v }, none)

/-- `mywr::llmo::write<uint32_t>(address, value, unprotect)`
(little-endian store). -/
def write32Op (m : Machine) (a v : Nat) (unprotect : Bool) :
    Machine × Option llmo_error :=
  if a % W = 0 then (m, some .InvalidAddressError)
  else if !unprotect && !is_writeable m a then
    (m, some .UnwriteableMemoryError)
  else if unprotect then
    let r := scopedAcquire m a .ReadWriteExecute 4
    if !r.2.valid then (scopedRelease r.1 r.2, some .InvalidProtectChangeError)
    else (scopedRelease { r.1 with mem := wrBytes r.1.mem a (le32 v) } r.2, none)
  else ({ m with mem := wrBytes m.mem a (le32 v) }, none)

/-- `mywr::llmo::copy(dest, src, size, unprotect)` for a heap (vector
data) destination and a code-memory source: checks in source order
(`size`, destination, source, writability/guard of the destination),
then reads `size` bytes at `src`.  Returns the machine, the error, and
the bytes landed in the vector. -/
def copyMemToHeap (m : Machine) (src size : Nat) (unprotect : Bool) :
    Machine × Option llmo_error × List Nat :=
  if size = 0 then (m, some .NullSizeError, [])
  else if m.heapAddr % W = 0 then (m, some .InvalidDestinationError, [])
  else if src % W = 0 then (m, some .InvalidSourceError, [])
  else if !unprotect && !is_writeable m m.heapAddr then
    (m, some .UnwriteableMemoryError, [])
  else if unprotect then
    let r := scopedAcquire m m.heapAddr .ReadWriteExecute size
    if !r.2.valid then
      (scopedRelease r.1 r.2, some .InvalidProtectChangeError, [])
    else (scopedRelease r.1 r.2, none, readBytes r.1.mem src size)
  else (m, none, readBytes m.mem src size)

/-- `mywr::llmo::copy(dest, src, size, unprotect)` for a code-memory
destination and a heap (vector data) source: the `memcpy` stores `size`
bytes taken from the vector's contents `l`. -/
def copyHeapToMem (m : Machine) (dest : Nat) (l : List Nat) (size : Nat)
    (unprotect : Bool) : Machine × Option llmo_error :=
  if size = 0 then (m, some .NullSizeError)
  else if dest % W = 0 then (m, some .InvalidDestinationError)
  else if m.heapAddr % W = 0 then (m, some .InvalidSourceError)
  else if !unprotect && !is_writeable m dest then
    (m, some .UnwriteableMemoryError)
  else if unprotect then
    let r := scopedAcquire m dest .ReadWriteExecute size
    if !r.2.valid then (scopedRelease r.1 r.2, some .InvalidProtectChangeError)
    else
      (scopedRelease
        { r.1 with
            mem := wrBytes r.1.mem dest ((List.range size).map fun i => l.getD i 0) }
        r.2, none)
  else
    ({ m with
        mem := wrBytes m.mem dest ((List.range size).map fun i => l.getD i 0) },
      none)

/-- `mywr::llmo::fill(dest, value, size, unprotect)` (a `memset`). -/
def fillOp (m : Machine) (dest v size : Nat) (unprotect : Bool) :
    Machine × Option llmo_error :=
  if size = 0 then (m, some .NullSizeError)
  else if dest % W = 0 then (m, some .InvalidAddressError)
  else if !unprotect && !is_writeable m dest then
    (m, some .UnwriteableMemoryError)
  else if unprotect then
    let r := scopedAcquire m dest .ReadWriteExecute size
    if !r.2.valid then (scopedRelease r.1 r.2, some .InvalidProtectChangeError)
    else (scopedRelease { r.1 with mem := wrRange r.1.mem dest size v } r.2, none)
  else ({ m with mem := wrRange m.mem dest size v }, none)

/-! ## The hook engine (`internal/hook/hook.hpp`, x86 implementation) -/

/-- `mywr::hook::hook_error` (`internal/hook/errors.hpp`). -/
inductive HookError where
  | AlreadyInstalledError | AlreadyRemovedError | NotExecutableError
  | ProtectViolationError | NotEnoughSpaceError | InvalidAddressError
  | BackupCreatingError | BackupRestoringError | AllocateCodecaveError
  | DeallocateCodecaveError | WriteMemoryError | UsercodeJumpRemoveError
  | ReinstallHookError
  deriving DecidableEq, Repr

/-- The mutable fields of a `mywr::hook::hook<Fun>` object:
`m_target`, `m_size`, `m_installed`, `m_trampoline`,
`m_original_bytes`, `m_usercode_jump` and `m_codecave`
(the latter as its buffer address and emitted size). -/
structure HookSt where
  target : Nat
  size : Nat
  installed : Bool
  trampoline : Nat
  originalBytes : Option (List Nat)
  usercodeJump : Option (List Nat)
  codecave : Option (Nat × Nat)

/-- Result of `install()`: either the call returns (error plus the final
machine and hook state), or it diverges — the `while` loop inside
`codegenerator::generate_trampoline` never exits because the decoder
reported a zero-length instruction, so the loop state repeats forever. -/
inductive Outcome where
  | diverges
  | result (err : Option HookError) (m : Machine) (h : HookSt)

/-- One iteration of the emission loop of
`codegenerator::generate_trampoline`, given the instruction decoded at
`addr` and the current emission cursor
(`cur = m_code->getCurr() = cave + 5 + emitted-so-far`).  Returns
`(instruction_size, decoded length, emitted bytes)`.  A near CALL
(`0xE8`) or a member of the jump family (`opcode & 0xFD == 0xE9`) is
re-encoded as a 5-byte instruction whose relative operand is recomputed
against the cursor (for the CALL the source passes the decoded length
to `get_relative_address`, for the jump it passes `kJumpSize = 5`); any
other instruction is copied verbatim. -/
def genTrampStep (m : Machine) (addr cur : Nat) : Nat × Nat × List Nat :=
  if (disassemble m addr).opcode = 232 then
    (5, (disassemble m addr).length,
      232 :: le32 (get_relative_address ((disassemble m addr).absA addr 0 % W) cur
        (disassemble m addr).length))
  else if Nat.land (disassemble m addr).opcode 253 = 233 then
    (5, (disassemble m addr).length,
      233 :: le32 (get_relative_address ((disassemble m addr).absA addr 0 % W) cur 5))
  else ((disassemble m addr).length, (disassemble m addr).length,
    readBytes m.mem addr (disassemble m addr).length)

/-- The emission loop of `codegenerator::generate_trampoline`: walk
instructions from the target until at least `minimal` bytes are
emitted.  `none` models the case in which the source loop never
terminates: a zero-length decode in a non-relocated iteration advances
neither `address` nor `size`, so the deterministic loop state repeats
forever. -/
def genTrampGo (m : Machine) (cave : Nat) :
    Nat → Nat → Nat → Nat → List Nat → Option (List Nat)
  | fuel, addr, size, minimal, acc =>
    if size < minimal then
      if (genTrampStep m addr ((cave + 5 + acc.length) % W)).1 = 0 then none
      else
        match fuel with
        | 0 => none
        | fuel + 1 =>
            genTrampGo m cave fuel
              (addr + (genTrampStep m addr ((cave + 5 + acc.length) % W)).2.1)
              (size + (genTrampStep m addr ((cave + 5 + acc.length) % W)).1)
              minimal
              (acc ++ (genTrampStep m addr ((cave + 5 + acc.length) % W)).2.2)
    else some acc

def genTrampLoop (m : Machine) (cave : Nat)
    (addr size minimal : Nat) (acc : List Nat) : Option (List Nat) :=
  genTrampGo m cave (minimal - size) addr size minimal acc

/-- The full codecave emission of
`codegenerator::create_label_also_add_trampoline` followed by
`save_context` / `push_hook_object` / `call_relay`: a leading 5-byte
near jump over the trampoline (`jmp(label, T_NEAR)` emits `E9 rel32`),
the relocated trampoline, the terminal jump back to `target + L`
(`Machine.termJmp`, encoded by Xbyak), and the relay preamble
(`Machine.relayBytes`, encoded by Xbyak). -/
def codegenEmit (m : Machine) (cave target minimal : Nat) : Option (List Nat) :=
  (genTrampLoop m cave target 0 minimal []).map fun tb =>
    233 :: le32 ((tb.length + m.termJmp.length) % W) ++ tb ++ m.termJmp ++ m.relayBytes

/-- The tail of `hook::install`'s target-rewrite step shared by both
opcode branches: write the 32-bit relative operand at `target + 1`
(`WriteMemory` on failure), fill `target[5..L)` with `0x90` when
`L > 5` — the source ignores `fill`'s result — and set
`m_installed = true`.  `g` is the still-active scoped protection,
released on every exit path. -/
def installWriteRel (m : Machine) (g : ScopedProtect) (h : HookSt) (cave : Nat) :
    Option HookError × Machine × HookSt :=
  let relative := get_relative_address cave h.target 5
  let w := write32Op m (h.target + 1) relative false
  if w.2.isSome then (some .WriteMemoryError, scopedRelease w.1 g, h)
  else
    let m2 := if 5 < h.size then (fillOp w.1 (h.target + 5) 144 (h.size - 5) false).1
              else w.1
    (none, scopedRelease m2 g, { h with installed := true })

/-- The opcode branch of `hook::install`'s target-rewrite step: if the
byte at the target reads as `0xE8` (near CALL), decode the existing
32-bit relative operand into this hook's trampoline and leave the opcode
alone; otherwise the trampoline is `codecave + 5` and `0xE9` is written
at `target[0]` (`WriteMemory` on failure).  The dereference of the
`read<uint32_t>` result in the source is unchecked; the model reads `0`
if it failed. -/
def installTail (m : Machine) (g : ScopedProtect) (h : HookSt) (cave : Nat) :
    Option HookError × Machine × HookSt :=
  if (readByteOp m h.target false).2.toOption = some 232 then
    let rel := (read32Op m (h.target + 1) false).2.toOption.getD 0
    installWriteRel m g { h with trampoline := restore_absolute_address rel h.target 5 } cave
  else
    let h1 := { h with trampoline := (cave + 5) % W }
    let w := writeByteOp m h.target 233 false
    if w.2.isSome then (some .WriteMemoryError, scopedRelease w.1 g, h1)
    else installWriteRel w.1 g h1 cave

/-- `mywr::hook::hook::install()`.  Preconditions in source order
(`AlreadyInstalled`, `InvalidAddress`, `NotExecutable`,
`NotEnoughSpace`, `ProtectViolation`), then either the re-install path
(codecave already owned: restore the saved `usercode_jump` bytes at the
codecave start and mark installed) or the first-install path (allocate
`Xbyak::DEFAULT_MAX_CODE_SIZE = 4096` bytes, emit the codecave,
snapshot the original `L` prologue bytes, rewrite the target). -/
def install (m : Machine) (h : HookSt) : Outcome :=
  if h.installed then .result (some .AlreadyInstalledError) m h
  else if h.target % W = 0 then .result (some .InvalidAddressError) m h
  else if !is_executable m h.target then .result (some .NotExecutableError) m h
  else if h.size < 5 then .result (some .NotEnoughSpaceError) m h
  else
    let a := scopedAcquire m h.target .ReadWriteExecute h.size
    if !a.2.valid then .result (some .ProtectViolationError) (scopedRelease a.1 a.2) h
    else
      match h.codecave with
      | some (cave, _) =>
          let uj := h.usercodeJump.getD []
          let c := copyHeapToMem a.1 cave uj uj.length true
          if c.2.isSome then
            .result (some .ReinstallHookError) (scopedRelease c.1 a.2) h
          else .result none (scopedRelease c.1 a.2) { h with installed := true }
      | none =>
          let al := allocate a.1 4096
          match al.2 with
          | none => .result (some .AllocateCodecaveError) (scopedRelease al.1 a.2) h
          | some cave =>
            match codegenEmit al.1 cave h.target h.size with
            | none => .diverges
            | some emission =>
              let m3 := { al.1 with mem := wrBytes al.1.mem cave emission }
              let h3 := { h with codecave := some (cave, emission.length) }
              if h3.originalBytes.isNone then
                let cp := copyMemToHeap m3 h.target h.size false
                let snap := if cp.2.1.isSome then List.replicate h.size 0 else cp.2.2
                let h4 := { h3 with originalBytes := some snap }
                if cp.2.1.isSome then
                  .result (some .BackupCreatingError) (scopedRelease cp.1 a.2) h4
                else
                  let t := installTail cp.1 a.2 h4 cave
                  .result t.1 t.2.1 t.2.2
              else
                let t := installTail m3 a.2 h3 cave
                .result t.1 t.2.1 t.2.2

/-- The operand scan of `hook::remove`: the index of the first relative
operand of the decoded instruction, if any (the source loop returns on
the first hit). -/
def findFirstRel (insn : Inst) : Option Nat :=
  (List.range insn.operandCount).find? fun i => insn.isRel i

/-- The `unload_hook` lambda of `hook::remove` (hard removal): restore
the snapshot over `target[0..L)` (`BackupRestoring` on failure),
deallocate the codecave (`DeallocateCodecave` on failure), clear the
snapshot, codecave and usercode-jump fields and clear `m_installed`. -/
def unloadHook (m : Machine) (g : ScopedProtect) (h : HookSt) (cave : Nat) :
    Option HookError × Machine × HookSt :=
  let ob := h.originalBytes.getD []
  let c := copyHeapToMem m h.target ob h.size false
  if c.2.isSome then (some .BackupRestoringError, scopedRelease c.1 g, h)
  else
    let d := deallocate c.1 cave
    if !d.2 then (some .DeallocateCodecaveError, scopedRelease d.1 g, h)
    else
      (none, scopedRelease d.1 g,
        { h with originalBytes := none, codecave := none, usercodeJump := none,
                 installed := false })

/-- The `patch_hook` lambda of `hook::remove` (soft removal): save the
codecave's first 5 bytes into `m_usercode_jump` (`BackupCreating` on
failure), overwrite them with NOPs (`UsercodeJumpRemove` on failure) and
clear `m_installed`, leaving the codecave allocated and the target bytes
untouched. -/
def patchHook (m : Machine) (g : ScopedProtect) (h : HookSt) (cave : Nat) :
    Option HookError × Machine × HookSt :=
  let cp := copyMemToHeap m cave 5 true
  let saved := if cp.2.1.isSome then List.replicate 5 0 else cp.2.2
  let h2 := { h with usercodeJump := some saved }
  if cp.2.1.isSome then (some .BackupCreatingError, scopedRelease cp.1 g, h2)
  else
    let f := fillOp cp.1 cave 144 5 true
    if f.2.isSome then (some .UsercodeJumpRemoveError, scopedRelease f.1 g, h2)
    else (none, scopedRelease f.1 g, { h2 with installed := false })

/-- `mywr::hook::hook::remove()`.  Preconditions (`AlreadyRemoved`,
`InvalidAddress`, `ProtectViolation`), then decode the instruction at
the target; for the first relative operand, compute the absolute
destination: if it equals the codecave start or the trampoline the hook
is hard-removed, otherwise soft-removed; if no relative operand exists
the scan falls through to hard removal. -/
def remove (m : Machine) (h : HookSt) : Option HookError × Machine × HookSt :=
  if !h.installed then (some .AlreadyRemovedError, m, h)
  else if h.target % W = 0 then (some .InvalidAddressError, m, h)
  else
    let a := scopedAcquire m h.target .ReadWriteExecute h.size
    if !a.2.valid then (some .ProtectViolationError, scopedRelease a.1 a.2, h)
    else
      let insn := disassemble a.1 h.target
      let cave := (h.codecave.getD (0, 0)).1
      match findFirstRel insn with
      | some i =>
          let destination := insn.absA h.target i % W
          if destination = cave % W ∨ destination = h.trampoline % W then
            unloadHook a.1 a.2 h cave
          else patchHook a.1 a.2 h cave
      | none => unloadHook a.1 a.2 h cave

/-! ## Prologue-length helper (`internal/hook/utility.hpp`) -/

/-- The loop of `mywr::hook::utility::get_at_least_n_bytes`, indexed by
fuel: one unit of fuel per iteration of
`while (size < minimal_bytes) size += disassemble(code + size).length()`.
The call terminates if and only if some fuel makes the run return
`some`. -/
def getAtLeastNBytesFuel (m : Machine) (code minimal : Nat) :
    Nat → Nat → Option Nat
  | 0, size => if size < minimal then none else some size
  | fuel + 1, size =>
      if size < minimal then
        getAtLeastNBytesFuel m code minimal fuel
          (size + (disassemble m (code + size)).length)
      else some size

/-- Termination of `get_at_least_n_bytes(code, minimal)`. -/
def getAtLeastTerminates (m : Machine) (code minimal : Nat) : Prop :=
  ∃ fuel r, getAtLeastNBytesFuel m code minimal fuel 0 = some r

/-- The partial sums the loop of `get_at_least_n_bytes` walks through:
`p 0 = 0` and `p (k+1) = p k + length of the instruction decoded at
code + p k`. -/
def prologueSum (m : Machine) (code : Nat) : Nat → Nat
  | 0 => 0
  | k + 1 => prologueSum m code k +
      (disassemble m (code + prologueSum m code k)).length

/-! ## Decoder faithfulness

The Zydis decoder is an external collaborator.  Theorems that depend on
how the 5-byte `E8 rel32` / `E9 rel32` forms decode assume the decoder
is faithful to the x86 encoding on exactly those byte patterns: the
first operand is a relative immediate whose absolute target is
`runtime + 5 + rel32` reduced to the 32-bit address width, as computed
by `ZydisCalcAbsoluteAddress`. -/
def RelDecoder (d : List Nat → Inst) : Prop :=
  ∀ bs : List Nat, bs.length = 15 → (bs.getD 0 0 = 232 ∨ bs.getD 0 0 = 233) →
    1 ≤ (d bs).operandCount ∧ (d bs).isRel 0 = true ∧
    ∀ r, (d bs).absA r 0 = (r + 5 + le32val (bs.drop 1)) % W

/-- A concrete decoder used to instantiate theorems: decodes `E8`/`E9`
heads as the 5-byte relative forms and everything else as a one-byte
instruction with no operands. -/
def simpleDecoder : List Nat → Inst := fun bs =>
  if bs.getD 0 0 = 232 ∨ bs.getD 0 0 = 233 then
    { length := 5, opcode := bs.getD 0 0, operandCount := 1,
      isRel := fun i => i == 0,
      absA := fun r _ => (r + 5 + le32val (bs.drop 1)) % W }
  else
    { length := 1, opcode := bs.getD 0 0, operandCount := 0,
      isRel := fun _ => false, absA := fun _ _ => 0 }

theorem simpleDecoder_rel : RelDecoder simpleDecoder := by
  intro bs _ hb
  unfold simpleDecoder
  rw [if_pos hb]
  exact ⟨le_refl 1, by simp, fun r => rfl⟩

/-! ## Basic lemmas about the memory model -/

theorem W_pos : 0 < W := by simp [W]

theorem readBytes_length (mem : Nat → Nat) (a n : Nat) :
    (readBytes mem a n).length = n := by
  simp [readBytes]

theorem readBytes_getD (mem : Nat → Nat) (a n i : Nat) (hi : i < n) :
    (readBytes mem a n).getD i 0 = mem ((a + i) % W) := by
  simp [readBytes, List.getD, List.getElem?_map, List.getElem?_range, hi]

theorem mod_add_ne (a d : Nat) (h0 : 0 < d) (hW : d < W) :
    (a + d) % W ≠ a % W := by
  intro h
  unfold W at *
  omega

theorem wrByte_same (mem : Nat → Nat) (a v : Nat) :
    wrByte mem a v (a % W) = v % 256 := by simp [wrByte]

theorem wrByte_other (mem : Nat → Nat) (a v x : Nat) (hx : x ≠ a % W) :
    wrByte mem a v x = mem x := by simp [wrByte, hx]

theorem wrBytes_out (l : List Nat) (mem : Nat → Nat) (a x : Nat)
    (hx : ∀ i < l.length, x ≠ (a + i) % W) :
    wrBytes mem a l x = mem x := by
  induction l generalizing mem a with
  | nil => rfl
  | cons b bs ih =>
      have h0 : x ≠ a % W := by
        have := hx 0 (by simp)
        simpa using this
      rw [wrBytes, ih]
      · exact wrByte_other mem a b x h0
      · intro i hi
        have h3 : a + 1 + i = a + (i + 1) := by omega
        rw [h3]
        exact hx (i + 1) (by simpa using Nat.succ_lt_succ hi)

theorem wrBytes_getD (l : List Nat) (mem : Nat → Nat) (a i : Nat)
    (hl : l.length ≤ W) (hi : i < l.length) :
    wrBytes mem a l ((a + i) % W) = l.getD i 0 % 256 := by
  induction l generalizing mem a i with
  | nil => simp at hi
  | cons b bs ih =>
      match i with
      | 0 =>
          rw [wrBytes, wrBytes_out]
          · simpa using wrByte_same mem a b
          · intro j hj
            simp only [Nat.add_zero]
            have h2 : a + 1 + j = a + (1 + j) := by omega
            rw [h2]
            intro hh
            exact mod_add_ne a (1 + j) (by omega) (by simp at hl; omega) hh.symm
      | j + 1 =>
          rw [wrBytes]
          have h1 : a + (j + 1) = (a + 1) + j := by omega
          rw [h1]
          have := ih (wrByte mem a b) (a + 1) j (by simp at hl; omega)
            (by simp at hi; omega)
          simpa using this

theorem inRangeW_iff (x a n : Nat) (hx : x < W) (hn : n ≤ W) :
    inRangeW x a n = true ↔ ∃ i, i < n ∧ x = (a + i) % W := by
  have ha' : a % W < W := Nat.mod_lt _ W_pos
  have key : ∀ i, i < n → (a + i) % W = (a % W + i) % W := by
    intro i hi
    conv_lhs => rw [Nat.add_mod]
    rw [Nat.mod_eq_of_lt (lt_of_lt_of_le hi hn)]
  unfold inRangeW
  split_ifs with hcase
  · simp only [decide_eq_true_eq]
    constructor
    · rintro ⟨h1, h2⟩
      exact ⟨x - a % W, by omega,
        by rw [key _ (by omega), Nat.add_sub_cancel' h1, Nat.mod_eq_of_lt hx]⟩
    · rintro ⟨i, hi, hxe⟩
      rw [key i hi, Nat.mod_eq_of_lt (by omega)] at hxe
      omega
  · have hmod : (a % W + n) % W = a % W + n - W := by
      rw [Nat.mod_eq_sub_mod (by omega), Nat.mod_eq_of_lt (by omega)]
    simp only [decide_eq_true_eq, hmod]
    constructor
    · rintro (h1 | h2)
      · exact ⟨x - a % W, by omega,
          by rw [key _ (by omega), Nat.add_sub_cancel' h1, Nat.mod_eq_of_lt hx]⟩
      · refine ⟨x + W - a % W, by omega, ?_⟩
        rw [key _ (by omega)]
        have h3 : a % W + (x + W - a % W) = x + W := by omega
        rw [h3, Nat.add_mod_right, Nat.mod_eq_of_lt hx]
    · rintro ⟨i, hi, hxe⟩
      rw [key i hi] at hxe
      rcases Nat.lt_or_ge (a % W + i) W with hlt | hge
      · left; rw [Nat.mod_eq_of_lt hlt] at hxe; omega
      · right
        have h4 : (a % W + i) % W = a % W + i - W := by
          rw [Nat.mod_eq_sub_mod hge, Nat.mod_eq_of_lt (by omega)]
        rw [h4] at hxe; omega

theorem wrRange_out (f : Nat → Nat) (a n v x : Nat) (hx : x < W) (hn : n ≤ W)
    (h : ∀ i < n, x ≠ (a + i) % W) : wrRange f a n v x = f x := by
  unfold wrRange
  cases hb : inRangeW x a n with
  | false => simp
  | true =>
      obtain ⟨i, hi, hxe⟩ := (inRangeW_iff x a n hx hn).1 hb
      exact absurd hxe (h i hi)

theorem wrRange_hit (f : Nat → Nat) (a n v x : Nat) (hx : x < W) (hn : n ≤ W)
    (h : ∃ i, i < n ∧ x = (a + i) % W) : wrRange f a n v x = v := by
  unfold wrRange
  rw [(inRangeW_iff x a n hx hn).2 h]
  rfl

theorem wrRange_cases (f : Nat → Nat) (a n v x : Nat) :
    wrRange f a n v x = v ∨ wrRange f a n v x = f x := by
  unfold wrRange
  split_ifs <;> simp

/-! ## Protection facts -/

theorem is_writeable_of_prot (m : Machine) (a : Nat)
    (h : m.prot (a % W) = 4 ∨ m.prot (a % W) = 64) : is_writeable m a = true := by
  rcases h with h | h <;> simp only [is_writeable, get_protect, h] <;> decide

theorem is_readable_of_prot (m : Machine) (a : Nat)
    (h : m.prot (a % W) = 4 ∨ m.prot (a % W) = 64) : is_readable m a = true := by
  rcases h with h | h <;> simp only [is_readable, get_protect, h] <;> decide

/-! ## Guard behaviour -/

theorem scopedAcquire_ok (m : Machine) (a : Nat) (p : protection) (n : Nat)
    (ha : a % W ≠ 0) (hv : m.vpFail m.clock = false) :
    scopedAcquire m a p n =
      ({ m with
          clock := m.clock + 1
          prot := wrRange m.prot a n (from_protection_constant p) },
        ⟨a, n, to_protection_constant (m.prot (a % W))⟩) := by
  simp [scopedAcquire, set_protect, ha, hv]

theorem scopedAcquire_fail (m : Machine) (a : Nat) (p : protection) (n : Nat)
    (ha : a % W ≠ 0) (hv : m.vpFail m.clock = true) :
    scopedAcquire m a p n = ({ m with clock := m.clock + 1 }, ⟨a, n, .None⟩) := by
  have h0 : to_protection_constant 0 = protection.None := by decide
  simp [scopedAcquire, set_protect, ha, hv, h0]

@[simp] theorem scopedRelease_mem (m : Machine) (s : ScopedProtect) :
    (scopedRelease m s).mem = m.mem := by
  unfold scopedRelease set_protect
  split_ifs <;> rfl

@[simp] theorem scopedRelease_allocated (m : Machine) (s : ScopedProtect) :
    (scopedRelease m s).allocated = m.allocated := by
  unfold scopedRelease set_protect
  split_ifs <;> rfl

@[simp] theorem scopedRelease_heapAddr (m : Machine) (s : ScopedProtect) :
    (scopedRelease m s).heapAddr = m.heapAddr := by
  unfold scopedRelease set_protect
  split_ifs <;> rfl

@[simp] theorem scopedRelease_decoder (m : Machine) (s : ScopedProtect) :
    (scopedRelease m s).decoder = m.decoder := by
  unfold scopedRelease set_protect
  split_ifs <;> rfl

@[simp] theorem scopedRelease_vpFail (m : Machine) (s : ScopedProtect) :
    (scopedRelease m s).vpFail = m.vpFail := by
  unfold scopedRelease set_protect
  split_ifs <;> rfl

@[simp] theorem scopedRelease_freeOk (m : Machine) (s : ScopedProtect) :
    (scopedRelease m s).freeOk = m.freeOk := by
  unfold scopedRelease set_protect
  split_ifs <;> rfl

@[simp] theorem scopedRelease_allocAt (m : Machine) (s : ScopedProtect) :
    (scopedRelease m s).allocAt = m.allocAt := by
  unfold scopedRelease set_protect
  split_ifs <;> rfl

@[simp] theorem scopedRelease_termJmp (m : Machine) (s : ScopedProtect) :
    (scopedRelease m s).termJmp = m.termJmp := by
  unfold scopedRelease set_protect
  split_ifs <;> rfl

@[simp] theorem scopedRelease_relayBytes (m : Machine) (s : ScopedProtect) :
    (scopedRelease m s).relayBytes = m.relayBytes := by
  unfold scopedRelease set_protect
  split_ifs <;> rfl

theorem scopedRelease_clock_valid (m : Machine) (s : ScopedProtect)
    (hs : s.valid = true) : (scopedRelease m s).clock = m.clock + 1 := by
  unfold scopedRelease set_protect
  rw [if_pos hs]
  split_ifs <;> rfl

theorem scopedRelease_prot_out (m : Machine) (s : ScopedProtect) (x : Nat)
    (hx : x < W) (hs : s.size ≤ W) (h : ∀ i < s.size, x ≠ (s.addr + i) % W) :
    (scopedRelease m s).prot x = m.prot x := by
  unfold scopedRelease set_protect
  split_ifs with h1 h2
  · rfl
  · exact wrRange_out m.prot s.addr s.size _ x hx hs h
  · rfl

/-! ## Shared concrete instances for witnesses and counterexamples -/

/-- A decoded-instruction record for a failed decode: Zydis leaves the
zero-initialised record, so length and opcode are `0`. -/
def inst0 : Inst :=
  { length := 0, opcode := 0, operandCount := 0,
    isRel := fun _ => false, absA := fun _ _ => 0 }

/-- A baseline machine: zeroed memory and protections, all protection
changes succeed, no allocations available, frees succeed, the decoder
always fails. -/
def mach0 : Machine :=
  { mem := fun _ => 0, prot := fun _ => 0, allocated := fun _ => false,
    clock := 0, vpFail := fun _ => false, allocAt := fun _ => none,
    freeOk := fun _ => true, decoder := fun _ => inst0,
    heapAddr := 0, termJmp := [], relayBytes := [] }

/-- A machine whose pages carry the unmapped Windows protection constant
`PAGE_WRITECOPY`. -/
def machWriteCopy : Machine := { mach0 with prot := fun _ => PAGE_WRITECOPY }

theorem scopedAcquire_addr_size (m : Machine) (a : Nat) (p : protection) (n : Nat) :
    (scopedAcquire m a p n).2.addr = a ∧ (scopedAcquire m a p n).2.size = n := by
  unfold scopedAcquire set_protect
  split_ifs <;> exact ⟨rfl, rfl⟩

/-! ## Claim C8 -/

/-- C8 (counterexample): on a page whose current protection DWORD is the
unmapped `PAGE_WRITECOPY`, the initial `VirtualProtect` call succeeds
(the oracle reports no failure and the page really is re-protected to
`PAGE_EXECUTE_READWRITE`), yet the guard is invalid, because the prior
DWORD converts to the `None` kind.  This refutes "valid if and only if
its initial protection change succeeded". -/
theorem C8_counterexample :
    (scopedAcquire machWriteCopy 4096 protection.ReadWriteExecute 16).2.valid = false ∧
    machWriteCopy.vpFail machWriteCopy.clock = false ∧
    (scopedAcquire machWriteCopy 4096 protection.ReadWriteExecute 16).1.prot 4096 =
      PAGE_EXECUTE_READWRITE := by
  refine ⟨by decide, rfl, by decide⟩

/-- C8 (amended): a guard over a valid address is valid iff the initial
`VirtualProtect` call succeeded AND the queried prior protection
converts to a representable kind (not `None`); a failed initial change
leaves the protections untouched; an invalid guard performs nothing on
destruction; a valid guard's destruction restores the stored prior kind
over the stored size (when the OS accepts the restore). -/
theorem C8_scoped_protect_validity (m : Machine) (a : Nat) (p : protection) (n : Nat)
    (ha : a % W ≠ 0) :
    ((scopedAcquire m a p n).2.valid = true ↔
      (m.vpFail m.clock = false ∧
        to_protection_constant (m.prot (a % W)) ≠ protection.None)) ∧
    (m.vpFail m.clock = true → (scopedAcquire m a p n).1.prot = m.prot) ∧
    (∀ m', (scopedAcquire m a p n).2.valid = false →
      scopedRelease m' (scopedAcquire m a p n).2 = m') ∧
    (∀ m', (scopedAcquire m a p n).2.valid = true → m'.vpFail m'.clock = false →
      (scopedRelease m' (scopedAcquire m a p n).2).prot =
        wrRange m'.prot a n
          (from_protection_constant (scopedAcquire m a p n).2.protKind)) := by
  obtain ⟨hga, hgs⟩ := scopedAcquire_addr_size m a p n
  refine ⟨?_, ?_, ?_, ?_⟩
  · cases hv : m.vpFail m.clock
    · rw [scopedAcquire_ok m a p n ha hv]
      simp [ScopedProtect.valid, ha]
    · rw [scopedAcquire_fail m a p n ha hv]
      simp [ScopedProtect.valid]
  · intro hv
    rw [scopedAcquire_fail m a p n ha hv]
  · intro m' hvf
    unfold scopedRelease
    simp [hvf]
  · intro m' hval hv'
    unfold scopedRelease
    rw [if_pos hval]
    simp [set_protect, hv', hga, hgs]

/-- C8 (witness): the validity characterisation instantiated on the
`PAGE_WRITECOPY` machine. -/
theorem C8_scoped_protect_validity_witness :
    (scopedAcquire machWriteCopy 4096 protection.ReadWriteExecute 16).2.valid = true ↔
      (machWriteCopy.vpFail machWriteCopy.clock = false ∧
        to_protection_constant (machWriteCopy.prot (4096 % W)) ≠ protection.None) :=
  (C8_scoped_protect_validity machWriteCopy 4096 protection.ReadWriteExecute 16
    (by decide)).1

/-! ## Claim C9 -/

/-- C9 (counterexample): at an address where every decode fails (the
decoder reports length 0, as Zydis leaves a zero-initialised record),
`get_at_least_n_bytes(code, 5)` does not terminate: the loop body adds
0 to `size` forever.  This refutes "terminates … even at an address
where decoding an instruction fails and reports length 0". -/
theorem C9_counterexample : ¬ getAtLeastTerminates mach0 0 5 := by
  rintro ⟨fuel, r, hr⟩
  suffices h : ∀ f size, size < 5 → getAtLeastNBytesFuel mach0 0 5 f size = none by
    rw [h fuel 0 (by decide)] at hr
    exact Option.noConfusion hr
  intro f
  induction f with
  | zero => intro size hs; simp [getAtLeastNBytesFuel, hs]
  | succ f ih =>
      intro size hs
      rw [getAtLeastNBytesFuel, if_pos hs]
      have hlen : (disassemble mach0 (0 + size)).length = 0 := rfl
      rw [hlen]
      simpa using ih size hs

/-- The run of the `get_at_least_n_bytes` loop from any partial sum,
when every decoded length along the trajectory is positive. -/
theorem getAtLeast_run (m : Machine) (code minimal : Nat)
    (hpos : ∀ k, 0 < (disassemble m (code + prologueSum m code k)).length) :
    ∀ fuel k, minimal ≤ prologueSum m code k + fuel →
      ∃ K, k ≤ K ∧
        getAtLeastNBytesFuel m code minimal fuel (prologueSum m code k) =
          some (prologueSum m code K) ∧
        minimal ≤ prologueSum m code K ∧
        ∀ j, k ≤ j → j < K → prologueSum m code j < minimal := by
  intro fuel
  induction fuel with
  | zero =>
      intro k hk
      refine ⟨k, le_refl k, ?_, by simpa using hk, fun j h1 h2 => by omega⟩
      simp only [getAtLeastNBytesFuel]
      rw [if_neg (by omega)]
  | succ fuel ih =>
      intro k hk
      by_cases hs : prologueSum m code k < minimal
      · rw [getAtLeastNBytesFuel, if_pos hs]
        have hstep : prologueSum m code k +
            (disassemble m (code + prologueSum m code k)).length =
            prologueSum m code (k + 1) := rfl
        rw [hstep]
        have hlen := hpos k
        obtain ⟨K, hkK, hrun, hge, hj⟩ := ih (k + 1) (by
          have : prologueSum m code k + 1 ≤ prologueSum m code (k + 1) := by
            rw [← hstep]; omega
          omega)
        refine ⟨K, by omega, hrun, hge, fun j h1 h2 => ?_⟩
        rcases Nat.eq_or_lt_of_le h1 with rfl | h3
        · exact hs
        · exact hj j h3 h2
      · rw [getAtLeastNBytesFuel, if_neg hs]
        exact ⟨k, le_refl k, rfl, by omega, fun j h1 h2 => by omega⟩

/-- C9 (amended): whenever every instruction decoded along the loop's
trajectory has positive length, `get_at_least_n_bytes(code, minimal)`
terminates (fuel `minimal` suffices) and returns the first accumulated
sum of consecutive decoded instruction lengths that is `≥ minimal`; when
a decode along the way reports length 0, the loop never terminates. -/
theorem C9_get_at_least_n_bytes (m : Machine) (code minimal : Nat)
    (hpos : ∀ k, 0 < (disassemble m (code + prologueSum m code k)).length) :
    getAtLeastTerminates m code minimal ∧
    ∃ K, getAtLeastNBytesFuel m code minimal minimal 0 =
        some (prologueSum m code K) ∧
      minimal ≤ prologueSum m code K ∧
      ∀ j < K, prologueSum m code j < minimal := by
  have h0 : prologueSum m code 0 = 0 := rfl
  obtain ⟨K, _, hrun, hge, hj⟩ :=
    getAtLeast_run m code minimal hpos minimal 0 (by rw [h0]; omega)
  rw [h0] at hrun
  exact ⟨⟨minimal, _, hrun⟩, K, hrun, hge, fun j hjK => hj j (Nat.zero_le j) hjK⟩

/-- A machine whose decoder always reports a one-byte instruction. -/
def machLenOne : Machine :=
  { mach0 with decoder := fun _ => { inst0 with length := 1 } }

/-- C9 (witness): the amended statement on a machine whose decoder
always reports length 1. -/
theorem C9_get_at_least_n_bytes_witness :
    getAtLeastTerminates machLenOne 100 5 ∧
    ∃ K, getAtLeastNBytesFuel machLenOne 100 5 5 0 =
        some (prologueSum machLenOne 100 K) ∧
      5 ≤ prologueSum machLenOne 100 K ∧
      ∀ j < K, prologueSum machLenOne 100 j < 5 :=
  C9_get_at_least_n_bytes machLenOne 100 5 (fun _ => Nat.one_pos)

/-! ## Claim C2 -/

/-- C2: `install()` evaluates its preconditions in source order and
returns the error kind of the first failing one, leaving the memory,
protections and allocations (and the hook itself) unchanged:
`AlreadyInstalled`, then `InvalidAddress` for a zero target, then
`NotExecutable`, then `NotEnoughSpace` for `L < 5`, then
`ProtectViolation` when the scoped protection change fails. -/
theorem C2_install_precondition_order :
    (∀ m hk, hk.installed = true →
      install m hk = .result (some .AlreadyInstalledError) m hk) ∧
    (∀ m hk, hk.installed = false → hk.target % W = 0 →
      install m hk = .result (some .InvalidAddressError) m hk) ∧
    (∀ m hk, hk.installed = false → hk.target % W ≠ 0 →
      is_executable m hk.target = false →
      install m hk = .result (some .NotExecutableError) m hk) ∧
    (∀ m hk, hk.installed = false → hk.target % W ≠ 0 →
      is_executable m hk.target = true → hk.size < 5 →
      install m hk = .result (some .NotEnoughSpaceError) m hk) ∧
    (∀ m hk, hk.installed = false → hk.target % W ≠ 0 →
      is_executable m hk.target = true → ¬ hk.size < 5 →
      m.vpFail m.clock = true →
      install m hk = .result (some .ProtectViolationError)
        { m with clock := m.clock + 1 } hk) := by
  refine ⟨?_, ?_, ?_, ?_, ?_⟩
  · intro m hk h1; simp [install, h1]
  · intro m hk h1 h2; simp [install, h1, h2]
  · intro m hk h1 h2 h3; simp [install, h1, h2, h3]
  · intro m hk h1 h2 h3 h4; simp [install, h1, h2, h3, h4]
  · intro m hk h1 h2 h3 h4 h5
    rw [install]
    simp only [h1, h2, h3, h4, if_false, if_neg h4]
    rw [scopedAcquire_fail m hk.target .ReadWriteExecute hk.size h2 h5]
    simp [ScopedProtect.valid, scopedRelease]

/-- An already-installed hook object. -/
def hookInstalled : HookSt :=
  { target := 4096, size := 5, installed := true, trampoline := 0,
    originalBytes := none, usercodeJump := none, codecave := none }

/-- A configured, not-yet-installed hook object. -/
def hookFresh5 : HookSt :=
  { target := 4096, size := 5, installed := false, trampoline := 0,
    originalBytes := none, usercodeJump := none, codecave := none }

/-- A machine with executable pages whose protection changes all fail. -/
def machPV : Machine :=
  { mach0 with prot := fun _ => PAGE_EXECUTE_READ, vpFail := fun _ => true }

/-- C2 (witness): the first and the last precondition case, exercised on
concrete machines. -/
theorem C2_install_precondition_order_witness :
    install mach0 hookInstalled = .result (some .AlreadyInstalledError) mach0 hookInstalled ∧
    install machPV hookFresh5 = .result (some .ProtectViolationError)
      { machPV with clock := machPV.clock + 1 } hookFresh5 :=
  ⟨C2_install_precondition_order.1 mach0 hookInstalled rfl,
   C2_install_precondition_order.2.2.2.2 machPV hookFresh5 rfl (by decide)
     (by decide) (by decide) rfl⟩

/-! ## More helper lemmas for the hook theorems -/

/-- An executable page's protection DWORD converts to a kind that is not
`None` (so the install guard's validity reduces to the success of the
`VirtualProtect` call). -/
theorem exec_prior_ne_none (m : Machine) (a : Nat)
    (h : is_executable m a = true) :
    to_protection_constant (m.prot (a % W)) ≠ protection.None := by
  intro hcon
  simp only [is_executable, get_protect, hcon] at h
  exact absurd h (by decide)

theorem readBytes_eq_of_getD (mem : Nat → Nat) (a n : Nat) (l : List Nat)
    (hl : l.length = n) (h : ∀ i < n, mem ((a + i) % W) = l.getD i 0) :
    readBytes mem a n = l := by
  apply List.ext_getElem
  · rw [readBytes_length, hl]
  · intro i h1 h2
    rw [readBytes_length] at h1
    have h3 := h i h1
    simp only [readBytes, List.getElem_map, List.getElem_range]
    rw [h3, List.getD_eq_getElem l 0 h2]

/-- The `valid()` test of the guard the hook engine acquires over the
target reduces to the success of the protection change, because the
executability precondition already guaranteed a representable prior
kind. -/
theorem hook_guard_valid (m : Machine) (a : Nat) (n : Nat)
    (ha : a % W ≠ 0) (hx : is_executable m a = true)
    (hv : m.vpFail m.clock = false) :
    (ScopedProtect.mk a n (to_protection_constant (m.prot (a % W)))).valid = true := by
  simp [ScopedProtect.valid, ha, exec_prior_ne_none m a hx]

/-! ## Step lemmas for the low-level operations -/

theorem copyHeapToMem_true_ok (m : Machine) (dest : Nat) (l : List Nat) (size : Nat)
    (hs : size ≠ 0) (hd : dest % W ≠ 0) (hh : m.heapAddr % W ≠ 0)
    (hv : m.vpFail m.clock = false)
    (hprior : to_protection_constant (m.prot (dest % W)) ≠ protection.None) :
    copyHeapToMem m dest l size true =
      (scopedRelease
        { m with
            clock := m.clock + 1
            prot := wrRange m.prot dest size
              (from_protection_constant .ReadWriteExecute)
            mem := wrBytes m.mem dest ((List.range size).map fun i => l.getD i 0) }
        ⟨dest, size, to_protection_constant (m.prot (dest % W))⟩, none) := by
  unfold copyHeapToMem
  rw [if_neg hs, if_neg hd, if_neg hh]
  simp only [Bool.not_true, Bool.false_and, Bool.false_eq_true, if_false, if_true,
    scopedAcquire_ok m dest .ReadWriteExecute size hd hv]
  rw [if_neg (by simp [ScopedProtect.valid, hd, hprior])]

theorem copyHeapToMem_true_fail (m : Machine) (dest : Nat) (l : List Nat) (size : Nat)
    (hs : size ≠ 0) (hd : dest % W ≠ 0) (hh : m.heapAddr % W ≠ 0)
    (hv : m.vpFail m.clock = true) :
    copyHeapToMem m dest l size true =
      ({ m with clock := m.clock + 1 }, some .InvalidProtectChangeError) := by
  unfold copyHeapToMem
  rw [if_neg hs, if_neg hd, if_neg hh]
  simp only [Bool.not_true, Bool.false_and, Bool.false_eq_true, if_false, if_true,
    scopedAcquire_fail m dest .ReadWriteExecute size hd hv]
  rw [if_pos (by simp [ScopedProtect.valid])]
  simp [scopedRelease, ScopedProtect.valid]

theorem copyHeapToMem_false_ok (m : Machine) (dest : Nat) (l : List Nat) (size : Nat)
    (hs : size ≠ 0) (hd : dest % W ≠ 0) (hh : m.heapAddr % W ≠ 0)
    (hw : is_writeable m dest = true) :
    copyHeapToMem m dest l size false =
      ({ m with
          mem := wrBytes m.mem dest ((List.range size).map fun i => l.getD i 0) },
        none) := by
  unfold copyHeapToMem
  rw [if_neg hs, if_neg hd, if_neg hh]
  simp [hw]

theorem copyMemToHeap_false_ok (m : Machine) (src size : Nat)
    (hs : size ≠ 0) (hh : m.heapAddr % W ≠ 0) (hsrc : src % W ≠ 0)
    (hw : is_writeable m m.heapAddr = true) :
    copyMemToHeap m src size false = (m, none, readBytes m.mem src size) := by
  unfold copyMemToHeap
  rw [if_neg hs, if_neg hh, if_neg hsrc]
  simp [hw]

theorem copyMemToHeap_true_ok (m : Machine) (src size : Nat)
    (hs : size ≠ 0) (hh : m.heapAddr % W ≠ 0) (hsrc : src % W ≠ 0)
    (hv : m.vpFail m.clock = false)
    (hprior : to_protection_constant (m.prot (m.heapAddr % W)) ≠ protection.None) :
    copyMemToHeap m src size true =
      (scopedRelease
        { m with
            clock := m.clock + 1
            prot := wrRange m.prot m.heapAddr size
              (from_protection_constant .ReadWriteExecute) }
        ⟨m.heapAddr, size, to_protection_constant (m.prot (m.heapAddr % W))⟩,
        none, readBytes m.mem src size) := by
  unfold copyMemToHeap
  rw [if_neg hs, if_neg hh, if_neg hsrc]
  simp only [Bool.not_true, Bool.false_and, Bool.false_eq_true, if_false, if_true,
    scopedAcquire_ok m m.heapAddr .ReadWriteExecute size hh hv]
  rw [if_neg (by simp [ScopedProtect.valid, hh, hprior])]

theorem copyMemToHeap_true_fail (m : Machine) (src size : Nat)
    (hs : size ≠ 0) (hh : m.heapAddr % W ≠ 0) (hsrc : src % W ≠ 0)
    (hv : m.vpFail m.clock = true) :
    copyMemToHeap m src size true =
      ({ m with clock := m.clock + 1 }, some .InvalidProtectChangeError, []) := by
  unfold copyMemToHeap
  rw [if_neg hs, if_neg hh, if_neg hsrc]
  simp only [Bool.not_true, Bool.false_and, Bool.false_eq_true, if_false, if_true,
    scopedAcquire_fail m m.heapAddr .ReadWriteExecute size hh hv]
  rw [if_pos (by simp [ScopedProtect.valid])]
  simp [scopedRelease, ScopedProtect.valid]

theorem fillOp_false_ok (m : Machine) (dest v size : Nat)
    (hs : size ≠ 0) (hd : dest % W ≠ 0) (hw : is_writeable m dest = true) :
    fillOp m dest v size false = ({ m with mem := wrRange m.mem dest size v }, none) := by
  unfold fillOp
  rw [if_neg hs, if_neg hd]
  simp [hw]

theorem fillOp_false_invalid (m : Machine) (dest v size : Nat)
    (hs : size ≠ 0) (hd : dest % W = 0) :
    fillOp m dest v size false = (m, some .InvalidAddressError) := by
  unfold fillOp
  rw [if_neg hs, if_pos hd]

theorem fillOp_true_ok (m : Machine) (dest v size : Nat)
    (hs : size ≠ 0) (hd : dest % W ≠ 0)
    (hv : m.vpFail m.clock = false)
    (hprior : to_protection_constant (m.prot (dest % W)) ≠ protection.None) :
    fillOp m dest v size true =
      (scopedRelease
        { m with
            clock := m.clock + 1
            prot := wrRange m.prot dest size
              (from_protection_constant .ReadWriteExecute)
            mem := wrRange m.mem dest size v }
        ⟨dest, size, to_protection_constant (m.prot (dest % W))⟩, none) := by
  unfold fillOp
  rw [if_neg hs, if_neg hd]
  simp only [Bool.not_true, Bool.false_and, Bool.false_eq_true, if_false, if_true,
    scopedAcquire_ok m dest .ReadWriteExecute size hd hv]
  rw [if_neg (by simp [ScopedProtect.valid, hd, hprior])]

theorem fillOp_true_fail (m : Machine) (dest v size : Nat)
    (hs : size ≠ 0) (hd : dest % W ≠ 0)
    (hv : m.vpFail m.clock = true) :
    fillOp m dest v size true =
      ({ m with clock := m.clock + 1 }, some .InvalidProtectChangeError) := by
  unfold fillOp
  rw [if_neg hs, if_neg hd]
  simp only [Bool.not_true, Bool.false_and, Bool.false_eq_true, if_false, if_true,
    scopedAcquire_fail m dest .ReadWriteExecute size hd hv]
  rw [if_pos (by simp [ScopedProtect.valid])]
  simp [scopedRelease, ScopedProtect.valid]

theorem writeByteOp_false_ok (m : Machine) (a v : Nat)
    (ha : a % W ≠ 0) (hw : is_writeable m a = true) :
    writeByteOp m a v false = ({ m with mem := wrByte m.mem a v }, none) := by
  unfold writeByteOp
  rw [if_neg ha]
  simp [hw]

theorem write32Op_false_ok (m : Machine) (a v : Nat)
    (ha : a % W ≠ 0) (hw : is_writeable m a = true) :
    write32Op m a v false = ({ m with mem := wrBytes m.mem a (le32 v) }, none) := by
  unfold write32Op
  rw [if_neg ha]
  simp [hw]

theorem write32Op_invalid (m : Machine) (a v : Nat) (ha : a % W = 0) :
    write32Op m a v false = (m, some .InvalidAddressError) := by
  unfold write32Op
  rw [if_pos ha]

theorem readByteOp_false_ok (m : Machine) (a : Nat)
    (ha : a % W ≠ 0) (hr : is_readable m a = true) :
    readByteOp m a false = (m, .ok (m.mem (a % W))) := by
  unfold readByteOp
  rw [if_neg ha]
  simp [hr]

theorem read32Op_false_ok (m : Machine) (a : Nat)
    (ha : a % W ≠ 0) (hr : is_readable m a = true) :
    read32Op m a false = (m, .ok (le32val (readBytes m.mem a 4))) := by
  unfold read32Op
  rw [if_neg ha]
  simp [hr]

theorem allocate_some (m : Machine) (size a : Nat)
    (ha : m.allocAt m.clock = some a) :
    allocate m size =
      ({ m with
          clock := m.clock + 1
          allocated := fun x => if x = a % W then true else m.allocated x
          prot := wrRange m.prot a size PAGE_EXECUTE_READWRITE
          mem := wrRange m.mem a size 0 },
        some (a % W)) := by
  unfold allocate
  rw [ha]

theorem allocate_none (m : Machine) (size : Nat)
    (ha : m.allocAt m.clock = none) :
    allocate m size = ({ m with clock := m.clock + 1 }, none) := by
  unfold allocate
  rw [ha]

theorem deallocate_ok (m : Machine) (a : Nat) (hf : m.freeOk m.clock = true) :
    deallocate m a =
      ({ m with
          clock := m.clock + 1
          allocated := fun x => if x = a % W then false else m.allocated x },
        true) := by
  unfold deallocate
  rw [if_pos hf]

theorem deallocate_fail (m : Machine) (a : Nat) (hf : m.freeOk m.clock = false) :
    deallocate m a = ({ m with clock := m.clock + 1 }, false) := by
  unfold deallocate
  rw [if_neg (by simp [hf])]

/-! ## Claim C6 -/

/-- C6: a subsequent `install()` on a hook that still owns a codecave
(soft-removed earlier) copies the 5 bytes saved in `usercode_jump` back
to the start of the codecave and sets `installed`; `ReinstallHook` when
that copy fails; nothing else changes — memory outside the codecave's
first 5 bytes, the snapshot, the trampoline field and the target bytes
are untouched. -/
theorem C6_reinstall (m : Machine) (hk : HookSt) (cave csz : Nat) (uj : List Nat)
    (hin : hk.installed = false) (hcc : hk.codecave = some (cave, csz))
    (huj : hk.usercodeJump = some uj) (hujlen : uj.length = 5)
    (hujb : ∀ b ∈ uj, b < 256)
    (ht : hk.target % W ≠ 0) (hx : is_executable m hk.target = true)
    (hsz : ¬ hk.size < 5) (hg : m.vpFail m.clock = false)
    (hcave : cave % W ≠ 0) (hheap : m.heapAddr % W ≠ 0)
    (hcp : to_protection_constant (m.prot (cave % W)) ≠ protection.None) :
    (m.vpFail (m.clock + 1) = false →
      ∃ m', install m hk = .result none m' { hk with installed := true } ∧
        readBytes m'.mem cave 5 = uj ∧
        (∀ x, (∀ i < 5, x ≠ (cave + i) % W) → m'.mem x = m.mem x) ∧
        m'.allocated = m.allocated) ∧
    (m.vpFail (m.clock + 1) = true →
      ∃ m', install m hk = .result (some .ReinstallHookError) m' hk ∧
        m'.mem = m.mem ∧ m'.allocated = m.allocated) := by
  have hgv := hook_guard_valid m hk.target hk.size ht hx hg
  have hpad : ((List.range 5).map fun i => uj.getD i 0).length = 5 := by simp
  constructor
  · intro hv2
    have hprior1 : to_protection_constant
        ((wrRange m.prot hk.target hk.size
          (from_protection_constant protection.ReadWriteExecute)) (cave % W)) ≠
          protection.None := by
      rcases wrRange_cases m.prot hk.target hk.size
        (from_protection_constant protection.ReadWriteExecute) (cave % W) with hc | hc <;>
        rw [hc]
      · decide
      · exact hcp
    simp only [install, hin, Bool.false_eq_true, if_false, if_neg ht, hx,
      Bool.not_true, if_neg hsz,
      scopedAcquire_ok m hk.target .ReadWriteExecute hk.size ht hg, hgv, hcc, huj,
      Option.getD_some, hujlen]
    rw [copyHeapToMem_true_ok _ cave uj 5 (by decide) hcave (by exact hheap)
      (by exact hv2) (by exact hprior1)]
    simp only [Option.isSome_none, Bool.false_eq_true, if_false]
    refine ⟨_, rfl, ?_, ?_, ?_⟩
    · simp only [scopedRelease_mem]
      apply readBytes_eq_of_getD _ _ _ _ hujlen
      intro i hi
      rw [wrBytes_getD _ _ _ i (by rw [hpad]; exact le_of_lt (by decide))
        (by rw [hpad]; exact hi)]
      have hval : ((List.range 5).map fun j => uj.getD j 0).getD i 0 = uj.getD i 0 := by
        simp [List.getD, List.getElem?_map, List.getElem?_range, hi]
      rw [hval]
      have hmem : uj.getD i 0 ∈ uj := by
        rw [List.getD_eq_getElem uj 0 (by omega)]
        exact List.getElem_mem _
      exact Nat.mod_eq_of_lt (hujb _ hmem)
    · intro x hxo
      simp only [scopedRelease_mem]
      apply wrBytes_out
      intro i hi
      rw [hpad] at hi
      exact hxo i hi
    · simp only [scopedRelease_allocated]
  · intro hv2
    simp only [install, hin, Bool.false_eq_true, if_false, if_neg ht, hx,
      Bool.not_true, if_neg hsz,
      scopedAcquire_ok m hk.target .ReadWriteExecute hk.size ht hg, hgv, hcc, huj,
      Option.getD_some, hujlen]
    rw [copyHeapToMem_true_fail _ cave uj 5 (by decide) hcave (by exact hheap)
      (by exact hv2)]
    simp only [Option.isSome_some, if_true]
    exact ⟨_, rfl, by simp, by simp⟩

/-- A soft-removed hook: codecave still owned, `usercode_jump` holds the
saved leading bytes. -/
def hookReinstall : HookSt :=
  { target := 4096, size := 5, installed := false, trampoline := 9000,
    originalBytes := some [1, 2, 3, 4, 5],
    usercodeJump := some [233, 1, 2, 3, 4], codecave := some (8192, 30) }

/-- A machine with read-execute pages and a heap for vector storage. -/
def machRX : Machine :=
  { mach0 with prot := fun _ => PAGE_EXECUTE_READ, heapAddr := 70000 }

/-- C6 (witness): a concrete successful re-install, restoring the saved
bytes at the codecave start and touching nothing else. -/
theorem C6_reinstall_witness :
    ∃ m', install machRX hookReinstall =
        .result none m' { hookReinstall with installed := true } ∧
      readBytes m'.mem 8192 5 = [233, 1, 2, 3, 4] ∧
      (∀ x, (∀ i < 5, x ≠ (8192 + i) % W) → m'.mem x = machRX.mem x) ∧
      m'.allocated = machRX.allocated :=
  (C6_reinstall machRX hookReinstall 8192 30 [233, 1, 2, 3, 4] rfl rfl rfl rfl
    (by decide) (by decide) (by decide) (by decide) rfl (by decide) (by decide)
    (by decide)).1 rfl

/-! ## Shared lemmas for the remove theorems -/

/-- Restoring a saved byte list through the source's `memcpy` of `size`
bytes from a vector reproduces the list exactly. -/
theorem readBytes_wrBytes_pad (mem : Nat → Nat) (a : Nat) (l : List Nat) (n : Nat)
    (hl : l.length = n) (hb : ∀ b ∈ l, b < 256) (hn : n ≤ W) :
    readBytes (wrBytes mem a ((List.range n).map fun i => l.getD i 0)) a n = l := by
  have hpad : ((List.range n).map fun i => l.getD i 0).length = n := by simp
  apply readBytes_eq_of_getD _ _ _ _ hl
  intro i hi
  rw [wrBytes_getD _ _ _ i (by rw [hpad]; exact hn) (by rw [hpad]; exact hi)]
  have hval : ((List.range n).map fun j => l.getD j 0).getD i 0 = l.getD i 0 := by
    simp [List.getD, List.getElem?_map, List.getElem?_range, hi]
  rw [hval]
  have hmem : l.getD i 0 ∈ l := by
    rw [List.getD_eq_getElem l 0 (by omega)]
    exact List.getElem_mem _
  exact Nat.mod_eq_of_lt (hb _ hmem)

/-- Frame lemma for the same `memcpy`: addresses outside the written
range are untouched. -/
theorem wrBytes_pad_out (mem : Nat → Nat) (a : Nat) (l : List Nat) (n x : Nat)
    (hx : ∀ i < n, x ≠ (a + i) % W) :
    wrBytes mem a ((List.range n).map fun i => l.getD i 0) x = mem x := by
  apply wrBytes_out
  intro i hi
  simp only [List.length_map, List.length_range] at hi
  exact hx i hi

/-- The protection DWORD of an address inside the freshly acquired
RWX range. -/
theorem guard_prot_rwx (prot : Nat → Nat) (a n i : Nat) (hi : i < n) (hn : n ≤ W) :
    wrRange prot a n (from_protection_constant .ReadWriteExecute) ((a + i) % W) =
      PAGE_EXECUTE_READWRITE := by
  apply wrRange_hit
  · exact Nat.mod_lt _ W_pos
  · exact hn
  · exact ⟨i, hi, rfl⟩

/-- Reading back a constant-filled range (the NOP `memset`). -/
theorem readBytes_wrRange_const (mem : Nat → Nat) (a n v : Nat)
    (hn : n ≤ W) : readBytes (wrRange mem a n v) a n = List.replicate n v := by
  apply readBytes_eq_of_getD _ _ _ _ (List.length_replicate n v)
  intro i hi
  rw [wrRange_hit _ _ _ _ _ (Nat.mod_lt _ W_pos) hn ⟨i, hi, rfl⟩]
  simp [List.getD, List.getElem?_replicate, hi]

/-! ## Claim C10 -/

/-- C10: `remove()` on an installed hook whose target instruction has no
relative operand at all falls through the operand scan to the
hard-removal path: the saved original bytes are copied over the target,
the codecave is deallocated, the snapshot/codecave/usercode-jump fields
are cleared and `installed` becomes false. -/
theorem C10_remove_no_relative_operand (m : Machine) (hk : HookSt)
    (cave csz : Nat) (ob : List Nat)
    (hin : hk.installed = true) (hcc : hk.codecave = some (cave, csz))
    (hob : hk.originalBytes = some ob) (hoblen : ob.length = hk.size)
    (hobb : ∀ b ∈ ob, b < 256)
    (ht : hk.target % W ≠ 0) (hsz : hk.size ≠ 0) (hszW : hk.size ≤ W)
    (hheap : m.heapAddr % W ≠ 0)
    (hg : m.vpFail m.clock = false)
    (hprior : to_protection_constant (m.prot (hk.target % W)) ≠ protection.None)
    (hfree : m.freeOk (m.clock + 1) = true)
    (hnone : findFirstRel (disassemble m hk.target) = none) :
    ∃ m', remove m hk =
        (none, m', { hk with
          originalBytes := none
          codecave := none
          usercodeJump := none
          installed := false }) ∧
      readBytes m'.mem hk.target hk.size = ob ∧
      (∀ x, (∀ i < hk.size, x ≠ (hk.target + i) % W) → m'.mem x = m.mem x) ∧
      m'.allocated (cave % W) = false := by
  have hgv : (ScopedProtect.mk hk.target hk.size
      (to_protection_constant (m.prot (hk.target % W)))).valid = true := by
    simp [ScopedProtect.valid, ht, hprior]
  have hwt : wrRange m.prot hk.target hk.size
      (from_protection_constant protection.ReadWriteExecute) (hk.target % W) =
      PAGE_EXECUTE_READWRITE := by
    have := guard_prot_rwx m.prot hk.target hk.size 0 (by omega) hszW
    simpa using this
  simp only [disassemble] at hnone
  simp only [remove, hin, Bool.not_true, Bool.false_eq_true, if_false, if_neg ht,
    scopedAcquire_ok m hk.target .ReadWriteExecute hk.size ht hg, hgv,
    disassemble, hcc, Option.getD_some, hnone, unloadHook, hob]
  rw [copyHeapToMem_false_ok _ hk.target ob hk.size hsz ht (by exact hheap)
    (by exact is_writeable_of_prot _ hk.target (Or.inr (by exact hwt)))]
  simp only [Option.isSome_none, Bool.false_eq_true, if_false]
  rw [deallocate_ok _ cave (by exact hfree)]
  simp only [Bool.not_true, Bool.false_eq_true, if_false]
  refine ⟨_, rfl, ?_, ?_, ?_⟩
  · simp only [scopedRelease_mem]
    exact readBytes_wrBytes_pad m.mem hk.target ob hk.size hoblen hobb hszW
  · intro x hx
    simp only [scopedRelease_mem]
    exact wrBytes_pad_out m.mem hk.target ob hk.size x hx
  · simp only [scopedRelease_allocated]
    simp

/-- An installed hook with a snapshot and codecave, for the remove
scenarios. -/
def hookHard : HookSt :=
  { target := 4096, size := 5, installed := true, trampoline := 9000,
    originalBytes := some [10, 20, 30, 40, 50], usercodeJump := none,
    codecave := some (8192, 30) }

/-- A machine whose decoder is `simpleDecoder` and whose target bytes
decode with no relative operand (NOP-like). -/
def machC10 : Machine :=
  { mach0 with
      prot := fun _ => PAGE_EXECUTE_READ
      heapAddr := 70000
      decoder := simpleDecoder }

/-! ## Claim C3 -/

/-- C3: `remove()` on an installed hook decodes the instruction at the
target and, for the first relative operand found, computes its absolute
destination.  If that destination is the hook's codecave start or its
trampoline entry, removal is hard (snapshot restored onto
`target[0..L)`, codecave deallocated — `DeallocateCodecave` on
failure — fields cleared and `installed` cleared); any other destination
gives soft removal (the codecave's first 5 bytes saved into
`usercode_jump` — `BackupCreating` when the protected copy fails —
then overwritten with NOPs — `UsercodeJumpRemove` when the protected
fill fails — and `installed` cleared, with the codecave still allocated
and the target bytes untouched). -/
theorem C3_remove_first_relative_dichotomy (m : Machine) (hk : HookSt)
    (cave csz : Nat) (ob : List Nat)
    (hin : hk.installed = true) (hcc : hk.codecave = some (cave, csz))
    (hob : hk.originalBytes = some ob) (hoblen : ob.length = hk.size)
    (hobb : ∀ b ∈ ob, b < 256)
    (ht : hk.target % W ≠ 0) (hsz : hk.size ≠ 0) (hszW : hk.size ≤ W)
    (hcave : cave % W ≠ 0) (hheap : m.heapAddr % W ≠ 0)
    (hheapRW : m.prot (m.heapAddr % W) = PAGE_READWRITE)
    (hcaveRWX : ∀ j < 5, m.prot ((cave + j) % W) = PAGE_EXECUTE_READWRITE)
    (hdisjTC : ∀ i < hk.size, ∀ j < 5, (hk.target + i) % W ≠ (cave + j) % W)
    (hdisjHC : ∀ i < 5, ∀ j < 5, (m.heapAddr + i) % W ≠ (cave + j) % W)
    (hg : m.vpFail m.clock = false)
    (hprior : to_protection_constant (m.prot (hk.target % W)) ≠ protection.None) :
    ∀ i, findFirstRel (disassemble m hk.target) = some i →
      (((disassemble m hk.target).absA hk.target i % W = cave % W ∨
        (disassemble m hk.target).absA hk.target i % W = hk.trampoline % W) →
        (m.freeOk (m.clock + 1) = true →
          ∃ m', remove m hk = (none, m', { hk with
              originalBytes := none
              codecave := none
              usercodeJump := none
              installed := false }) ∧
            readBytes m'.mem hk.target hk.size = ob ∧
            (∀ x, (∀ i2 < hk.size, x ≠ (hk.target + i2) % W) → m'.mem x = m.mem x) ∧
            m'.allocated (cave % W) = false) ∧
        (m.freeOk (m.clock + 1) = false →
          ∃ m', remove m hk = (some .DeallocateCodecaveError, m', hk) ∧
            readBytes m'.mem hk.target hk.size = ob ∧
            m'.allocated = m.allocated)) ∧
      (¬((disassemble m hk.target).absA hk.target i % W = cave % W ∨
        (disassemble m hk.target).absA hk.target i % W = hk.trampoline % W) →
        (m.vpFail (m.clock + 1) = true →
          ∃ m', remove m hk = (some .BackupCreatingError, m',
              { hk with usercodeJump := some (List.replicate 5 0) }) ∧
            m'.mem = m.mem ∧ m'.allocated = m.allocated) ∧
        (m.vpFail (m.clock + 1) = false → m.vpFail (m.clock + 3) = true →
          ∃ m', remove m hk = (some .UsercodeJumpRemoveError, m',
              { hk with usercodeJump := some (readBytes m.mem cave 5) }) ∧
            m'.mem = m.mem ∧ m'.allocated = m.allocated) ∧
        (m.vpFail (m.clock + 1) = false → m.vpFail (m.clock + 3) = false →
          ∃ m', remove m hk = (none, m', { hk with
              usercodeJump := some (readBytes m.mem cave 5)
              installed := false }) ∧
            readBytes m'.mem cave 5 = List.replicate 5 144 ∧
            (∀ x, x < W → (∀ j < 5, x ≠ (cave + j) % W) → m'.mem x = m.mem x) ∧
            m'.allocated = m.allocated)) := by
  have hgv : (ScopedProtect.mk hk.target hk.size
      (to_protection_constant (m.prot (hk.target % W)))).valid = true := by
    simp [ScopedProtect.valid, ht, hprior]
  have hwt : wrRange m.prot hk.target hk.size
      (from_protection_constant protection.ReadWriteExecute) (hk.target % W) =
      PAGE_EXECUTE_READWRITE := by
    have := guard_prot_rwx m.prot hk.target hk.size 0 (by omega) hszW
    simpa using this
  have hcave0 : cave % W = (cave + 0) % W := by simp
  have hcaveW : cave % W < W := Nat.mod_lt _ W_pos
  have hprotCave : wrRange m.prot hk.target hk.size
      (from_protection_constant protection.ReadWriteExecute) (cave % W) =
      PAGE_EXECUTE_READWRITE := by
    rw [wrRange_out _ _ _ _ _ hcaveW hszW (by
      intro i2 hi2
      rw [hcave0]
      exact (hdisjTC i2 hi2 0 (by omega)).symm)]
    rw [hcave0]
    exact hcaveRWX 0 (by omega)
  have hprotHeap : to_protection_constant
      ((wrRange m.prot hk.target hk.size
        (from_protection_constant protection.ReadWriteExecute)) (m.heapAddr % W)) ≠
      protection.None := by
    rcases wrRange_cases m.prot hk.target hk.size
      (from_protection_constant protection.ReadWriteExecute) (m.heapAddr % W) with hc | hc <;>
      rw [hc]
    · decide
    · rw [hheapRW]; decide
  intro i hfind
  simp only [disassemble] at hfind
  constructor
  · intro hdest
    simp only [disassemble] at hdest
    constructor
    · intro hfree
      simp only [remove, hin, Bool.not_true, Bool.false_eq_true, if_false, if_neg ht,
        scopedAcquire_ok m hk.target .ReadWriteExecute hk.size ht hg, hgv,
        disassemble, hcc, Option.getD_some, hfind, unloadHook, hob]
      rw [if_pos hdest]
      rw [copyHeapToMem_false_ok _ hk.target ob hk.size hsz ht (by exact hheap)
        (by exact is_writeable_of_prot _ hk.target (Or.inr (by exact hwt)))]
      simp only [Option.isSome_none, Bool.false_eq_true, if_false]
      rw [deallocate_ok _ cave (by exact hfree)]
      simp only [Bool.not_true, Bool.false_eq_true, if_false]
      refine ⟨_, rfl, ?_, ?_, ?_⟩
      · simp only [scopedRelease_mem]
        exact readBytes_wrBytes_pad m.mem hk.target ob hk.size hoblen hobb hszW
      · intro x hx
        simp only [scopedRelease_mem]
        exact wrBytes_pad_out m.mem hk.target ob hk.size x hx
      · simp only [scopedRelease_allocated]
        simp
    · intro hfree
      simp only [remove, hin, Bool.not_true, Bool.false_eq_true, if_false, if_neg ht,
        scopedAcquire_ok m hk.target .ReadWriteExecute hk.size ht hg, hgv,
        disassemble, hcc, Option.getD_some, hfind, unloadHook, hob]
      rw [if_pos hdest]
      rw [copyHeapToMem_false_ok _ hk.target ob hk.size hsz ht (by exact hheap)
        (by exact is_writeable_of_prot _ hk.target (Or.inr (by exact hwt)))]
      simp only [Option.isSome_none, Bool.false_eq_true, if_false]
      rw [deallocate_fail _ cave (by exact hfree)]
      simp only [Bool.not_false, if_true]
      refine ⟨_, rfl, ?_, ?_⟩
      · simp only [scopedRelease_mem]
        exact readBytes_wrBytes_pad m.mem hk.target ob hk.size hoblen hobb hszW
      · simp only [scopedRelease_allocated]
  · intro hdest
    simp only [disassemble] at hdest
    have hgHeapPrior : to_protection_constant
        ((wrRange m.prot hk.target hk.size
          (from_protection_constant protection.ReadWriteExecute)) (m.heapAddr % W)) ≠
        protection.None := hprotHeap
    have hcaveNotHeap : ∀ i2 < (5 : Nat), cave % W ≠ (m.heapAddr + i2) % W := by
      intro i2 hi2
      have := hdisjHC i2 hi2 0 (by omega)
      simpa using this.symm
    refine ⟨?_, ?_, ?_⟩
    · intro hv1
      simp only [remove, hin, Bool.not_true, Bool.false_eq_true, if_false, if_neg ht,
        scopedAcquire_ok m hk.target .ReadWriteExecute hk.size ht hg, hgv,
        disassemble, hcc, Option.getD_some, hfind, patchHook]
      rw [if_neg hdest]
      rw [copyMemToHeap_true_fail _ cave 5 (by decide) (by exact hheap) hcave
        (by exact hv1)]
      simp only [Option.isSome_some, if_true]
      exact ⟨_, rfl, by simp, by simp⟩
    · intro hv1 hv3
      simp only [remove, hin, Bool.not_true, Bool.false_eq_true, if_false, if_neg ht,
        scopedAcquire_ok m hk.target .ReadWriteExecute hk.size ht hg, hgv,
        disassemble, hcc, Option.getD_some, hfind, patchHook]
      rw [if_neg hdest]
      rw [copyMemToHeap_true_ok _ cave 5 (by decide) (by exact hheap) hcave
        (by exact hv1) (by exact hgHeapPrior)]
      dsimp only
      simp only [Option.isSome_none, Bool.false_eq_true, if_false]
      rw [fillOp_true_fail _ cave 144 5 (by decide) hcave (by
        rw [scopedRelease_vpFail, scopedRelease_clock_valid]
        · dsimp only
          have h13 : m.clock + 1 + 1 + 1 = m.clock + 3 := by omega
          rw [h13]
          exact hv3
        · simp only [ScopedProtect.valid]
          dsimp only
          simp [hheap, hgHeapPrior])]
      simp only [Option.isSome_some, if_true]
      refine ⟨_, rfl, by simp, by simp⟩
    · intro hv1 hv3
      simp only [remove, hin, Bool.not_true, Bool.false_eq_true, if_false, if_neg ht,
        scopedAcquire_ok m hk.target .ReadWriteExecute hk.size ht hg, hgv,
        disassemble, hcc, Option.getD_some, hfind, patchHook]
      rw [if_neg hdest]
      rw [copyMemToHeap_true_ok _ cave 5 (by decide) (by exact hheap) hcave
        (by exact hv1) (by exact hgHeapPrior)]
      dsimp only
      simp only [Option.isSome_none, Bool.false_eq_true, if_false]
      rw [fillOp_true_ok _ cave 144 5 (by decide) hcave
        (by
          rw [scopedRelease_vpFail, scopedRelease_clock_valid]
          · dsimp only
            have h13 : m.clock + 1 + 1 + 1 = m.clock + 3 := by omega
            rw [h13]
            exact hv3
          · simp only [ScopedProtect.valid]
            dsimp only
            simp [hheap, hgHeapPrior])
        (by
          rw [scopedRelease_prot_out _ _ _ (Nat.mod_lt _ W_pos)
            (by dsimp only; decide)
            (by
              dsimp only
              exact hcaveNotHeap)]
          dsimp only
          rw [wrRange_out _ _ _ _ _ (Nat.mod_lt _ W_pos) (by decide)
            (by exact hcaveNotHeap)]
          rw [hprotCave]
          decide)]
      dsimp only
      simp only [Option.isSome_none, Bool.false_eq_true, if_false]
      refine ⟨_, rfl, ?_, ?_, ?_⟩
      · simp only [scopedRelease_mem]
        exact readBytes_wrRange_const m.mem cave 5 144 (by decide)
      · intro x hxW hx
        simp only [scopedRelease_mem]
        exact wrRange_out _ _ _ _ _ hxW (by decide) hx
      · simp only [scopedRelease_allocated]

/-- A machine for the soft-removal scenario: the target holds a near JMP
whose destination is neither this hook's codecave nor its trampoline. -/
def machC3 : Machine :=
  { mach0 with
      mem := fun a => if a = 4096 then 233 else 0
      prot := fun a => if a = 70000 then 4 else
        if 8192 ≤ a ∧ a < 8197 then 64 else 32
      heapAddr := 70000
      decoder := simpleDecoder }

/-- C3 (witness): a concrete soft removal — the decoded destination
(4101) is neither the codecave (8192) nor the trampoline (9000), so the
codecave's first 5 bytes are saved and NOPped while the target bytes
stay untouched. -/
theorem C3_remove_first_relative_dichotomy_witness :
    ∃ m', remove machC3 hookHard = (none, m', { hookHard with
        usercodeJump := some (readBytes machC3.mem 8192 5)
        installed := false }) ∧
      readBytes m'.mem 8192 5 = List.replicate 5 144 ∧
      (∀ x, x < W → (∀ j < 5, x ≠ (8192 + j) % W) → m'.mem x = machC3.mem x) ∧
      m'.allocated = machC3.allocated :=
  (((C3_remove_first_relative_dichotomy machC3 hookHard 8192 30 [10, 20, 30, 40, 50]
      rfl rfl rfl rfl (by decide) (by decide) (by decide) (by decide) (by decide)
      (by decide) (by decide) (by decide) (by decide) (by decide) rfl (by decide))
    0 (by decide)).2 (by decide)).2.2 rfl rfl

/-! ## Lemmas for the round-trip claim -/

/-- Loading back a stored 32-bit little-endian value. -/
theorem le32val_le32 (v : Nat) : le32val (le32 v) = v % W := by
  unfold le32val le32 W
  simp only [List.getD]
  simp
  omega

theorem le32_lt (v : Nat) : ∀ b ∈ le32 v, b < 256 := by
  intro b hb
  unfold le32 at hb
  simp at hb
  rcases hb with h | h | h | h <;> omega

theorem le32_length (v : Nat) : (le32 v).length = 4 := rfl

theorem le32_getD_lt (v k : Nat) (hk : k < 4) : (le32 v).getD k 0 < 256 := by
  unfold le32
  match k with
  | 0 => simp; omega
  | 1 => simp; omega
  | 2 => simp; omega
  | 3 => simp; omega

/-- The absolute destination of the freshly written `E9/E8 rel32` patch
is the codecave: `target + 5 + get_relative_address(cave, target, 5)`
reduces to `cave` modulo `W`. -/
theorem restore_rel (c t : Nat) : (t + 5 + subW (subW c t) 5) % W = c % W := by
  unfold subW W
  omega

theorem findFirstRel_zero (insn : Inst) (h1 : 1 ≤ insn.operandCount)
    (h2 : insn.isRel 0 = true) : findFirstRel insn = some 0 := by
  unfold findFirstRel
  obtain ⟨k, hk⟩ : ∃ k, insn.operandCount = k + 1 :=
    ⟨insn.operandCount - 1, by omega⟩
  rw [hk, List.range_succ_eq_map]
  simp [List.find?, h2]

theorem wrByte_lt256 (mem : Nat → Nat) (a v : Nat)
    (h : ∀ x, mem x < 256) : ∀ x, wrByte mem a v x < 256 := by
  intro x
  unfold wrByte
  split_ifs
  · exact Nat.mod_lt _ (by omega)
  · exact h x

theorem wrBytes_lt256 (l : List Nat) (mem : Nat → Nat) (a : Nat)
    (h : ∀ x, mem x < 256) : ∀ x, wrBytes mem a l x < 256 := by
  induction l generalizing mem a with
  | nil => exact h
  | cons b bs ih => exact ih (wrByte mem a b) (a + 1) (wrByte_lt256 mem a b h)

theorem wrRange_lt256 (mem : Nat → Nat) (a n v : Nat) (hv : v < 256)
    (h : ∀ x, mem x < 256) : ∀ x, wrRange mem a n v x < 256 := by
  intro x
  rcases wrRange_cases mem a n v x with hc | hc <;> rw [hc]
  · exact hv
  · exact h x

theorem readBytes_congr (mem1 mem2 : Nat → Nat) (a n : Nat)
    (h : ∀ i < n, mem1 ((a + i) % W) = mem2 ((a + i) % W)) :
    readBytes mem1 a n = readBytes mem2 a n := by
  unfold readBytes
  apply List.map_congr_left
  intro i hi
  simp only [List.mem_range] at hi
  exact h i hi

/-- Inversion for the snapshot copy: when it reports no error, the
machine is unchanged and the bytes landed are a read of the source. -/
theorem copyMemToHeap_false_inv (m : Machine) (src size : Nat)
    (h : (copyMemToHeap m src size false).2.1 = none) :
    copyMemToHeap m src size false = (m, none, readBytes m.mem src size) := by
  unfold copyMemToHeap at h ⊢
  split_ifs at h ⊢ <;> simp_all

theorem writeByteOp_false_inv (m : Machine) (a v : Nat)
    (h : (writeByteOp m a v false).2 = none) :
    writeByteOp m a v false = ({ m with mem := wrByte m.mem a v }, none) := by
  unfold writeByteOp at h ⊢
  split_ifs at h ⊢ <;> simp_all

theorem write32Op_false_inv (m : Machine) (a v : Nat)
    (h : (write32Op m a v false).2 = none) :
    write32Op m a v false = ({ m with mem := wrBytes m.mem a (le32 v) }, none) := by
  unfold write32Op at h ⊢
  split_ifs at h ⊢ <;> simp_all

theorem readByteOp_false_val (m : Machine) (a v : Nat)
    (h : (readByteOp m a false).2.toOption = some v) :
    v = m.mem (a % W) := by
  unfold readByteOp at h
  split_ifs at h with h1 h2 h3
  · simp [Except.toOption] at h
  · simp [Except.toOption] at h
  · exact h3.elim
  · simp [Except.toOption] at h
    exact h.symm

theorem readByteOp_false_fst (m : Machine) (a : Nat) :
    (readByteOp m a false).1 = m := by
  unfold readByteOp
  split_ifs with h1 h2 h3
  · rfl
  · rfl
  · exact h3.elim
  · rfl

theorem read32Op_false_val (m : Machine) (a v : Nat)
    (h : (read32Op m a false).2.toOption = some v) :
    v = le32val (readBytes m.mem a 4) := by
  unfold read32Op at h
  split_ifs at h with h1 h2 h3
  · simp [Except.toOption] at h
  · simp [Except.toOption] at h
  · exact h3.elim
  · simp [Except.toOption] at h
    exact h.symm

theorem read32Op_false_fst (m : Machine) (a : Nat) :
    (read32Op m a false).1 = m := by
  unfold read32Op
  split_ifs with h1 h2 h3
  · rfl
  · rfl
  · exact h3.elim
  · rfl

/-- Whatever the the unchecked NOP fill did (succeed or fail), memory
outside its destination range is unchanged. -/
theorem fillOp_false_mem_out (m : Machine) (dest v size x : Nat)
    (hx : x < W) (hsW : size ≤ W) (hout : ∀ i < size, x ≠ (dest + i) % W) :
    ((fillOp m dest v size false).1).mem x = m.mem x := by
  unfold fillOp
  split_ifs with h1 h2 h3 h4
  · rfl
  · rfl
  · rfl
  · exact h4.elim
  · exact wrRange_out m.mem dest size v x hx hsW hout

theorem fillOp_false_fields (m : Machine) (dest v size : Nat) :
    ((fillOp m dest v size false).1).allocated = m.allocated ∧
    ((fillOp m dest v size false).1).decoder = m.decoder ∧
    ((fillOp m dest v size false).1).prot = m.prot := by
  unfold fillOp
  split_ifs with h1 h2 h3 h4
  · exact ⟨rfl, rfl, rfl⟩
  · exact ⟨rfl, rfl, rfl⟩
  · exact ⟨rfl, rfl, rfl⟩
  · exact h4.elim
  · exact ⟨rfl, rfl, rfl⟩

theorem fillOp_false_lt256 (m : Machine) (dest v size : Nat) (hv : v < 256)
    (h : ∀ x, m.mem x < 256) : ∀ x, ((fillOp m dest v size false).1).mem x < 256 := by
  unfold fillOp
  split_ifs with h1 h2 h3 h4
  · exact h
  · exact h
  · exact h
  · exact h4.elim
  · exact wrRange_lt256 m.mem dest size v hv h

theorem copyHeapToMem_false_inv (m : Machine) (dest : Nat) (l : List Nat)
    (size : Nat) (h : (copyHeapToMem m dest l size false).2 = none) :
    copyHeapToMem m dest l size false =
      ({ m with
          mem := wrBytes m.mem dest ((List.range size).map fun i => l.getD i 0) },
        none) := by
  unfold copyHeapToMem at h ⊢
  split_ifs at h ⊢ <;> simp_all

theorem deallocate_mem (m : Machine) (a : Nat) :
    (deallocate m a).1.mem = m.mem := by
  unfold deallocate
  split_ifs <;> rfl

theorem add_mod_comm_left (a i : Nat) (hi : i < W) :
    (a + i) % W = (a % W + i) % W := by
  conv_lhs => rw [Nat.add_mod]
  rw [Nat.mod_eq_of_lt hi]

theorem subW_lt (a b : Nat) : subW a b < W := by
  unfold subW
  exact Nat.mod_lt _ W_pos

/-- Every trampoline iteration emits exactly `instruction_size` bytes. -/
theorem genTrampStep_len (m : Machine) (addr cur : Nat) :
    (genTrampStep m addr cur).2.2.length = (genTrampStep m addr cur).1 := by
  unfold genTrampStep
  split_ifs <;> simp [le32, readBytes]

/-- With a Zydis-style decoder (length at most 15), every trampoline
iteration emits at most 15 bytes. -/
theorem genTrampStep_le15 (m : Machine) (addr cur : Nat)
    (hlen : ∀ bs, (m.decoder bs).length ≤ 15) :
    (genTrampStep m addr cur).1 ≤ 15 := by
  unfold genTrampStep
  split_ifs <;> simp [disassemble] <;> first | omega | exact hlen _

/-- Length bound on the emitted trampoline: the loop exits as soon as
`minimal` bytes are reached, and the last instruction adds at most 15,
one of which counts toward `minimal`. -/
theorem genTrampGo_length (m : Machine) (cave : Nat)
    (hlen : ∀ bs, (m.decoder bs).length ≤ 15) :
    ∀ fuel addr size minimal acc tb,
      genTrampGo m cave fuel addr size minimal acc = some tb →
      (minimal ≤ size → tb = acc) ∧
      (size < minimal → tb.length ≤ acc.length + (minimal - size) + 14) := by
  intro fuel
  induction fuel with
  | zero =>
      intro addr size minimal acc tb h
      rw [genTrampGo] at h
      by_cases hs : size < minimal
      · rw [if_pos hs] at h
        by_cases h0 : (genTrampStep m addr ((cave + 5 + acc.length) % W)).1 = 0
        · rw [if_pos h0] at h; cases h
        · rw [if_neg h0] at h; exact Option.noConfusion h
      · rw [if_neg hs] at h
        cases h
        exact ⟨fun _ => rfl, fun hc => by omega⟩
  | succ fuel ih =>
      intro addr size minimal acc tb h
      rw [genTrampGo] at h
      by_cases hs : size < minimal
      · rw [if_pos hs] at h
        refine ⟨fun hc => by omega, fun _ => ?_⟩
        by_cases h0 : (genTrampStep m addr ((cave + 5 + acc.length) % W)).1 = 0
        · rw [if_pos h0] at h; cases h
        · rw [if_neg h0] at h
          have hstep := ih _ _ _ _ _ h
          have hb := genTrampStep_len m addr ((cave + 5 + acc.length) % W)
          have h15 := genTrampStep_le15 m addr ((cave + 5 + acc.length) % W) hlen
          by_cases hdone : minimal ≤ size + (genTrampStep m addr
              ((cave + 5 + acc.length) % W)).1
          · have := hstep.1 hdone
            subst this
            simp only [List.length_append]
            omega
          · have := hstep.2 (by omega)
            simp only [List.length_append] at this
            omega
      · rw [if_neg hs] at h
        cases h
        exact ⟨fun _ => rfl, fun hc => by omega⟩

theorem genTrampLoop_length (m : Machine) (cave : Nat)
    (hlen : ∀ bs, (m.decoder bs).length ≤ 15) :
    ∀ fuel addr size minimal acc tb, minimal - size ≤ fuel →
      genTrampLoop m cave addr size minimal acc = some tb →
      (minimal ≤ size → tb = acc) ∧
      (size < minimal → tb.length ≤ acc.length + (minimal - size) + 14) := by
  intro _ addr size minimal acc tb _ h
  exact genTrampGo_length m cave hlen (minimal - size) addr size minimal acc tb h

/-- Length bound on the whole codecave emission. -/
theorem codegenEmit_length (m : Machine) (cave target minimal : Nat)
    (emission : List Nat) (hlen : ∀ bs, (m.decoder bs).length ≤ 15)
    (h : codegenEmit m cave target minimal = some emission) :
    emission.length ≤ minimal + 19 + m.termJmp.length + m.relayBytes.length := by
  unfold codegenEmit at h
  rcases Option.map_eq_some'.1 h with ⟨tb, htb, hemi⟩
  have hb := genTrampLoop_length m cave hlen minimal target 0 minimal [] tb
    (by omega) htb
  subst hemi
  simp [le32]
  by_cases hz : 0 < minimal
  · have := hb.2 hz
    simp at this
    omega
  · have := hb.1 (by omega)
    subst this
    simp
    omega

/-- Removal right after a successful install: the target starts with the
patched `E8`/`E9` byte whose rel32 leads to this hook's codecave, so a
faithful decoder routes `remove()` into hard removal, which restores the
snapshot. -/
theorem remove_after_patch (m1 : Machine) (h1 : HookSt) (m2 : Machine) (h2 : HookSt)
    (cave clen : Nat) (snap : List Nat)
    (hin1 : h1.installed = true) (ht1 : h1.target % W ≠ 0)
    (hcc1 : h1.codecave = some (cave, clen))
    (hob1 : h1.originalBytes = some snap)
    (hsnaplen : snap.length = h1.size) (hsnapb : ∀ b ∈ snap, b < 256)
    (hszW : h1.size ≤ W)
    (hdec : RelDecoder m1.decoder)
    (hb0 : m1.mem (h1.target % W) = 232 ∨ m1.mem (h1.target % W) = 233)
    (hrel : ∀ i, 1 ≤ i → i < 5 → m1.mem ((h1.target + i) % W) =
      (le32 (get_relative_address cave h1.target 5)).getD (i - 1) 0)
    (hcaveW : cave < W)
    (hrem : remove m1 h1 = (none, m2, h2)) :
    readBytes m2.mem h1.target h1.size = snap := by
  have hbs_len : (readBytes m1.mem h1.target 15).length = 15 :=
    readBytes_length _ _ _
  have hbs0 : (readBytes m1.mem h1.target 15).getD 0 0 = m1.mem (h1.target % W) := by
    rw [readBytes_getD _ _ _ 0 (by omega)]
    simp
  obtain ⟨hcount, hisrel, habs⟩ := hdec _ hbs_len (by rw [hbs0]; exact hb0)
  have hbsk : ∀ k < 15, (readBytes m1.mem h1.target 15).getD k 0 =
      m1.mem ((h1.target + k) % W) := fun k hk => readBytes_getD _ _ _ k hk
  have hdropk : ∀ i < 14, ((readBytes m1.mem h1.target 15).drop 1).getD i 0 =
      (readBytes m1.mem h1.target 15).getD (i + 1) 0 := by
    intro i hi
    simp only [List.getD]
    rw [List.get?_drop, Nat.add_comm 1 i]
  have hdrop : le32val ((readBytes m1.mem h1.target 15).drop 1) =
      get_relative_address cave h1.target 5 := by
    unfold le32val
    rw [hdropk 0 (by omega), hdropk 1 (by omega), hdropk 2 (by omega),
      hdropk 3 (by omega), hbsk 1 (by omega), hbsk 2 (by omega),
      hbsk 3 (by omega), hbsk 4 (by omega),
      hrel 1 (by omega) (by omega), hrel 2 (by omega) (by omega),
      hrel 3 (by omega) (by omega), hrel 4 (by omega) (by omega)]
    have h5 : le32val (le32 (get_relative_address cave h1.target 5)) =
        get_relative_address cave h1.target 5 % W :=
      le32val_le32 _
    unfold le32val at h5
    simp only [List.getD] at h5 ⊢
    rw [h5]
    exact Nat.mod_eq_of_lt (subW_lt _ _)
  have hdest : (m1.decoder (readBytes m1.mem h1.target 15)).absA h1.target 0 % W =
      cave % W := by
    rw [habs h1.target, hdrop]
    rw [Nat.mod_mod_of_dvd _ (dvd_refl W)]
    exact restore_rel cave h1.target
  unfold remove at hrem
  rw [if_neg (by simp [hin1]), if_neg ht1] at hrem
  cases hvp : m1.vpFail m1.clock
  case true =>
    rw [scopedAcquire_fail _ _ _ _ ht1 hvp] at hrem
    simp [ScopedProtect.valid] at hrem
  case false =>
  rw [scopedAcquire_ok _ _ _ _ ht1 hvp] at hrem
  by_cases hpn : to_protection_constant (m1.prot (h1.target % W)) = protection.None
  · have hinv : (ScopedProtect.mk h1.target h1.size
        (to_protection_constant (m1.prot (h1.target % W)))).valid = false := by
      simp [ScopedProtect.valid, hpn]
    simp [hinv] at hrem
  · have hgv : (ScopedProtect.mk h1.target h1.size
        (to_protection_constant (m1.prot (h1.target % W)))).valid = true := by
      simp [ScopedProtect.valid, ht1, hpn]
    simp only [hgv, Bool.not_true, Bool.false_eq_true, if_false, hcc1,
      Option.getD_some, disassemble] at hrem
    rw [findFirstRel_zero _ hcount hisrel] at hrem
    dsimp only at hrem
    rw [if_pos (Or.inl hdest)] at hrem
    simp only [unloadHook, hob1, Option.getD_some] at hrem
    split at hrem
    · simp at hrem
    · rw [copyHeapToMem_false_inv _ _ _ _ (by
        rw [← Option.not_isSome_iff_eq_none]
        simp_all)] at hrem
      dsimp only at hrem
      split at hrem
      · simp at hrem
      · simp only [Prod.mk.injEq] at hrem
        obtain ⟨-, hm2, -⟩ := hrem
        rw [← hm2]
        simp only [scopedRelease_mem, deallocate_mem]
        exact readBytes_wrBytes_pad m1.mem h1.target snap h1.size hsnaplen
          hsnapb hszW

set_option maxRecDepth 8192 in
set_option maxHeartbeats 1600000 in
/-- Inversion of a successful first install: the hook ends up installed
with a codecave and a snapshot equal to the pre-install bytes, and the
target holds the patched `E8/E9 rel32` whose operand leads to the
codecave.  The disjointness hypothesis says the freshly allocated page
does not overlap the target's prologue neighbourhood. -/
theorem install_fresh_inv (m : Machine) (hk : HookSt) (m1 : Machine) (h1 : HookSt)
    (hin : hk.installed = false) (hcc : hk.codecave = none)
    (hor : hk.originalBytes = none)
    (ht : hk.target % W ≠ 0)
    (hWtn : hk.target % W + hk.size + 15 < W)
    (hlen : ∀ bs, (m.decoder bs).length ≤ 15)
    (hdisj : ∀ c, m.allocAt (m.clock + 1) = some c →
      ∀ i j, i < hk.size + 15 →
        j < 4096 + hk.size + 19 + m.termJmp.length + m.relayBytes.length →
        (hk.target + i) % W ≠ (c % W + j) % W)
    (hinst : install m hk = .result none m1 h1) :
    ∃ cave clen,
      h1.target = hk.target ∧ h1.size = hk.size ∧ h1.installed = true ∧
      h1.codecave = some (cave, clen) ∧ cave < W ∧
      h1.originalBytes = some (readBytes m.mem hk.target hk.size) ∧
      m1.decoder = m.decoder ∧
      ((∀ x, m.mem x < 256) → ∀ x, m1.mem x < 256) ∧
      (m1.mem (hk.target % W) = 232 ∨ m1.mem (hk.target % W) = 233) ∧
      (∀ i, 1 ≤ i → i < 5 → m1.mem ((hk.target + i) % W) =
        (le32 (get_relative_address cave hk.target 5)).getD (i - 1) 0) ∧
      h1.trampoline =
        (if m.mem (hk.target % W) = 232 then
          restore_absolute_address (le32val (readBytes m.mem (hk.target + 1) 4))
            hk.target 5
        else (cave + 5) % W) := by
  have haddr : ∀ k, k < hk.size + 15 → (hk.target + k) % W = hk.target % W + k := by
    intro k hkk
    rw [add_mod_comm_left _ _ (by omega), Nat.mod_eq_of_lt (by omega)]
  unfold install at hinst
  rw [if_neg (by simp [hin]), if_neg ht] at hinst
  cases hx : is_executable m hk.target
  case false => rw [hx] at hinst; simp at hinst
  case true =>
  rw [hx] at hinst
  simp only [Bool.not_true, Bool.false_eq_true, if_false] at hinst
  by_cases hs5 : hk.size < 5
  · rw [if_pos hs5] at hinst; simp at hinst
  rw [if_neg hs5] at hinst
  cases hvp : m.vpFail m.clock
  rotate_left
  · rw [scopedAcquire_fail m hk.target .ReadWriteExecute hk.size ht hvp] at hinst
    simp [ScopedProtect.valid] at hinst
  rw [scopedAcquire_ok m hk.target .ReadWriteExecute hk.size ht hvp] at hinst
  have hgv := hook_guard_valid m hk.target hk.size ht hx hvp
  simp only [hgv, Bool.not_true, Bool.false_eq_true, if_false, hcc] at hinst
  cases hal : m.allocAt (m.clock + 1)
  · rw [allocate_none _ 4096 (by exact hal)] at hinst
    simp at hinst
  rename_i cv
  rw [allocate_some _ 4096 cv (by exact hal)] at hinst
  dsimp only at hinst
  split at hinst
  · exact absurd hinst (by simp)
  rename_i emission hem
  have hemlen : emission.length ≤
      hk.size + 19 + m.termJmp.length + m.relayBytes.length := by
    have := codegenEmit_length _ (cv % W) hk.target hk.size emission
      (by exact hlen) hem
    simpa using this
  -- the machine after allocation and emission
  have hM3out : ∀ k, k < hk.size + 15 →
      wrBytes (wrRange m.mem cv 4096 0) (cv % W) emission ((hk.target + k) % W) =
        m.mem ((hk.target + k) % W) := by
    intro k hkk
    rw [wrBytes_out _ _ _ _ (by
      intro j hj
      exact hdisj cv hal k j hkk (by omega))]
    apply wrRange_out _ _ _ _ _ (Nat.mod_lt _ W_pos) (by decide)
    intro j hj
    rw [add_mod_comm_left cv j (by unfold W; omega)]
    exact hdisj cv hal k j hkk (by omega)
  simp only [hor, Option.isNone_none, if_true] at hinst
  split at hinst
  · rename_i hcp
    exact absurd hinst (by simp)
  rename_i hcp
  rw [copyMemToHeap_false_inv _ _ _ (Option.not_isSome_iff_eq_none.mp hcp)] at hinst
  dsimp only at hinst
  have hsnap : readBytes (wrBytes (wrRange m.mem cv 4096 0) (cv % W) emission)
      hk.target hk.size = readBytes m.mem hk.target hk.size := by
    apply readBytes_congr
    intro i hi
    exact hM3out i (by omega)
  simp only [installTail] at hinst
  rw [hsnap] at hinst
  split at hinst
  · rename_i hE8
    -- the target already began with a near CALL: only the rel32 is written
    have hb232 := readByteOp_false_val _ _ _ hE8
    simp only [installWriteRel] at hinst
    split at hinst
    · injection hinst with he hm hh
      simp at he
    rename_i hw32
    rw [write32Op_false_inv _ _ _ (Option.not_isSome_iff_eq_none.mp hw32)] at hinst
    dsimp only at hinst
    simp only [Outcome.result.injEq] at hinst
    obtain ⟨-, hm1, hh1⟩ := hinst
    refine ⟨cv % W, emission.length, ?_⟩
    subst hm1
    subst hh1
    refine ⟨rfl, rfl, rfl, rfl, Nat.mod_lt _ W_pos, rfl, ?_, ?_, ?_, ?_, ?_⟩
    · simp only [scopedRelease_decoder]
      split_ifs with h5
      · exact (fillOp_false_fields _ _ _ _).2.1
      · rfl
    · intro hby x
      simp only [scopedRelease_mem]
      split_ifs with h5
      · exact fillOp_false_lt256 _ _ _ _ (by omega)
          (wrBytes_lt256 _ _ _ (wrBytes_lt256 _ _ _
            (wrRange_lt256 _ _ _ _ (by omega) hby))) x
      · exact wrBytes_lt256 _ _ _ (wrBytes_lt256 _ _ _
          (wrRange_lt256 _ _ _ _ (by omega) hby)) x
    · left
      simp only [scopedRelease_mem]
      have hww : ∀ mem : Nat → Nat,
          wrBytes mem (hk.target + 1)
            (le32 (get_relative_address (cv % W) hk.target 5)) (hk.target % W) =
          mem (hk.target % W) := by
        intro mem
        rw [wrBytes_out]
        intro j hj
        rw [le32_length] at hj
        have he : hk.target + 1 + j = hk.target + (1 + j) := by omega
        rw [he, haddr (1 + j) (by omega)]
        omega
      split_ifs with h5
      · rw [fillOp_false_mem_out]
        · exact (hww _).trans hb232.symm
        · exact Nat.mod_lt _ W_pos
        · omega
        · intro j hj
          have he : hk.target + 5 + j = hk.target + (5 + j) := by omega
          rw [he, haddr (5 + j) (by omega)]
          omega
      · exact (hww _).trans hb232.symm
    · intro i h1i h5i
      simp only [scopedRelease_mem]
      have hwg : ∀ mem : Nat → Nat,
          wrBytes mem (hk.target + 1)
            (le32 (get_relative_address (cv % W) hk.target 5))
            ((hk.target + i) % W) =
          (le32 (get_relative_address (cv % W) hk.target 5)).getD (i - 1) 0 := by
        intro mem
        have hidx : hk.target + i = hk.target + 1 + (i - 1) := by omega
        rw [hidx, wrBytes_getD]
        · exact Nat.mod_eq_of_lt (le32_getD_lt _ _ (by omega))
        · rw [le32_length]
          unfold W
          omega
        · rw [le32_length]
          omega
      split_ifs with h5
      · rw [fillOp_false_mem_out]
        · exact hwg _
        · exact Nat.mod_lt _ W_pos
        · omega
        · intro j hj
          rw [haddr i (by omega)]
          have he : hk.target + 5 + j = hk.target + (5 + j) := by omega
          rw [he, haddr (5 + j) (by omega)]
          omega
      · exact hwg _
    · have h00 := hM3out 0 (by omega)
      rw [Nat.add_zero] at h00
      have hm232 : m.mem (hk.target % W) = 232 := by
        rw [← h00]
        exact hb232.symm
      rw [if_pos hm232]
      rw [read32Op_false_ok _ _ (by rw [haddr 1 (by omega)]; omega) (by
        apply is_readable_of_prot
        right
        show wrRange (wrRange m.prot hk.target hk.size
            (from_protection_constant .ReadWriteExecute)) cv 4096
            PAGE_EXECUTE_READWRITE ((hk.target + 1) % W) = 64
        rcases wrRange_cases (wrRange m.prot hk.target hk.size
            (from_protection_constant .ReadWriteExecute)) cv 4096
            PAGE_EXECUTE_READWRITE ((hk.target + 1) % W) with hc | hc
        · exact hc
        · rw [hc]
          exact guard_prot_rwx m.prot hk.target hk.size 1 (by omega) (by omega))]
      simp only [Except.toOption, Option.getD_some]
      have hcongr : readBytes (wrBytes (wrRange m.mem cv 4096 0) (cv % W) emission)
          (hk.target + 1) 4 = readBytes m.mem (hk.target + 1) 4 := by
        apply readBytes_congr
        intro i hi
        have he : hk.target + 1 + i = hk.target + (1 + i) := by omega
        rw [he]
        exact hM3out (1 + i) (by omega)
      rw [hcongr]
  · rename_i hE8
    -- fresh target: the 0xE9 opcode byte is written first
    split at hinst
    · injection hinst with he hm hh
      simp at he
    rename_i hwb
    rw [writeByteOp_false_inv _ _ _ (Option.not_isSome_iff_eq_none.mp hwb)] at hinst
    simp only [installWriteRel] at hinst
    split at hinst
    · injection hinst with he hm hh
      simp at he
    rename_i hw32
    rw [write32Op_false_inv _ _ _ (Option.not_isSome_iff_eq_none.mp hw32)] at hinst
    dsimp only at hinst
    simp only [Outcome.result.injEq] at hinst
    obtain ⟨-, hm1, hh1⟩ := hinst
    refine ⟨cv % W, emission.length, ?_⟩
    subst hm1
    subst hh1
    refine ⟨rfl, rfl, rfl, rfl, Nat.mod_lt _ W_pos, rfl, ?_, ?_, ?_, ?_, ?_⟩
    · simp only [scopedRelease_decoder]
      split_ifs with h5
      · exact (fillOp_false_fields _ _ _ _).2.1
      · rfl
    · intro hby x
      simp only [scopedRelease_mem]
      split_ifs with h5
      · exact fillOp_false_lt256 _ _ _ _ (by omega)
          (wrBytes_lt256 _ _ _ (wrByte_lt256 _ _ _ (wrBytes_lt256 _ _ _
            (wrRange_lt256 _ _ _ _ (by omega) hby)))) x
      · exact wrBytes_lt256 _ _ _ (wrByte_lt256 _ _ _ (wrBytes_lt256 _ _ _
          (wrRange_lt256 _ _ _ _ (by omega) hby))) x
    · right
      simp only [scopedRelease_mem]
      have hww : ∀ mem : Nat → Nat,
          wrBytes mem (hk.target + 1)
            (le32 (get_relative_address (cv % W) hk.target 5)) (hk.target % W) =
          mem (hk.target % W) := by
        intro mem
        rw [wrBytes_out]
        intro j hj
        rw [le32_length] at hj
        have he : hk.target + 1 + j = hk.target + (1 + j) := by omega
        rw [he, haddr (1 + j) (by omega)]
        omega
      split_ifs with h5
      · rw [fillOp_false_mem_out]
        · exact (hww _).trans (wrByte_same _ _ _)
        · exact Nat.mod_lt _ W_pos
        · omega
        · intro j hj
          have he : hk.target + 5 + j = hk.target + (5 + j) := by omega
          rw [he, haddr (5 + j) (by omega)]
          omega
      · exact (hww _).trans (wrByte_same _ _ _)
    · intro i h1i h5i
      simp only [scopedRelease_mem]
      have hwg : ∀ mem : Nat → Nat,
          wrBytes mem (hk.target + 1)
            (le32 (get_relative_address (cv % W) hk.target 5))
            ((hk.target + i) % W) =
          (le32 (get_relative_address (cv % W) hk.target 5)).getD (i - 1) 0 := by
        intro mem
        have hidx : hk.target + i = hk.target + 1 + (i - 1) := by omega
        rw [hidx, wrBytes_getD]
        · exact Nat.mod_eq_of_lt (le32_getD_lt _ _ (by omega))
        · rw [le32_length]
          unfold W
          omega
        · rw [le32_length]
          omega
      split_ifs with h5
      · rw [fillOp_false_mem_out]
        · exact hwg _
        · exact Nat.mod_lt _ W_pos
        · omega
        · intro j hj
          rw [haddr i (by omega)]
          have he : hk.target + 5 + j = hk.target + (5 + j) := by omega
          rw [he, haddr (5 + j) (by omega)]
          omega
      · exact hwg _
    · rw [readByteOp_false_ok _ _ (by exact ht) (by
        apply is_readable_of_prot
        right
        show wrRange (wrRange m.prot hk.target hk.size
            (from_protection_constant .ReadWriteExecute)) cv 4096
            PAGE_EXECUTE_READWRITE (hk.target % W) = 64
        rcases wrRange_cases (wrRange m.prot hk.target hk.size
            (from_protection_constant .ReadWriteExecute)) cv 4096
            PAGE_EXECUTE_READWRITE (hk.target % W) with hc | hc
        · exact hc
        · rw [hc]
          have h0 := guard_prot_rwx m.prot hk.target hk.size 0 (by omega) (by omega)
          rw [Nat.add_zero] at h0
          exact h0)] at hE8
      simp only [Except.toOption, Option.some.injEq] at hE8
      have hm : ¬ m.mem (hk.target % W) = 232 := by
        intro hc
        apply hE8
        have h00 := hM3out 0 (by omega)
        rw [Nat.add_zero] at h00
        exact h00.trans hc
      rw [if_neg hm]

/-- C10 (witness): a concrete hard removal after outside code erased the
patch (the decoded instruction has no relative operand). -/
theorem C10_remove_no_relative_operand_witness :
    ∃ m', remove machC10 hookHard =
        (none, m', { hookHard with
          originalBytes := none
          codecave := none
          usercodeJump := none
          installed := false }) ∧
      readBytes m'.mem hookHard.target hookHard.size = [10, 20, 30, 40, 50] ∧
      (∀ x, (∀ i < hookHard.size, x ≠ (hookHard.target + i) % W) →
        m'.mem x = machC10.mem x) ∧
      m'.allocated (8192 % W) = false :=
  C10_remove_no_relative_operand machC10 hookHard 8192 30 [10, 20, 30, 40, 50]
    rfl rfl rfl rfl (by decide) (by decide) (by decide) (by decide) (by decide)
    rfl (by decide) rfl (by decide)

/-! ## Claim C1 -/

/-- Projection of an `install` outcome onto the final machine (with the
baseline machine for the diverging case). -/
def outMach : Outcome → Machine
  | .diverges => mach0
  | .result _ m _ => m

/-- Projection of an `install` outcome onto the final hook state. -/
def outHook : Outcome → HookSt
  | .diverges =>
      { target := 0, size := 0, installed := false, trampoline := 0,
        originalBytes := none, usercodeJump := none, codecave := none }
  | .result _ _ h => h

/-- C1: a successful first `install()` followed by a successful
`remove()` restores the `L` bytes at the target to exactly the bytes
observed just before the install.  The fresh-install path snapshots the
original prologue into `m_original_bytes`; the patched `E8/E9 rel32` at
the target decodes back to the hook's own codecave, so `remove()` takes
the hard-removal path and copies the snapshot back over `target[0..L)`.
Hypotheses: the hook is fresh (not installed, no codecave, no
snapshot), the target is valid and its `L + 15` byte neighbourhood does
not wrap around the 32-bit address space, memory holds bytes, the
decoder is rel32-faithful with Zydis-bounded lengths, and the page
`VirtualAlloc` hands out does not overlap that neighbourhood. -/
theorem C1_install_remove_roundtrip (m : Machine) (hk : HookSt)
    (m1 : Machine) (h1 : HookSt) (m2 : Machine) (h2 : HookSt)
    (hin : hk.installed = false) (hcc : hk.codecave = none)
    (hor : hk.originalBytes = none)
    (ht : hk.target % W ≠ 0)
    (hWtn : hk.target % W + hk.size + 15 < W)
    (hbytes : ∀ x, m.mem x < 256)
    (hdec : RelDecoder m.decoder)
    (hlen : ∀ bs, (m.decoder bs).length ≤ 15)
    (hdisj : ∀ c, m.allocAt (m.clock + 1) = some c →
      ∀ i j, i < hk.size + 15 →
        j < 4096 + hk.size + 19 + m.termJmp.length + m.relayBytes.length →
        (hk.target + i) % W ≠ (c % W + j) % W)
    (hinst : install m hk = .result none m1 h1)
    (hrem : remove m1 h1 = (none, m2, h2)) :
    readBytes m2.mem hk.target hk.size = readBytes m.mem hk.target hk.size := by
  obtain ⟨cave, clen, htg, hsz, hins1, hcc1, hcaveW, hob1, hdec1, -, hb0, hrel, -⟩ :=
    install_fresh_inv m hk m1 h1 hin hcc hor ht hWtn hlen hdisj hinst
  have hres := remove_after_patch m1 h1 m2 h2 cave clen
    (readBytes m.mem hk.target hk.size)
    hins1 (by rw [htg]; exact ht) hcc1 hob1
    (by rw [hsz]; exact readBytes_length _ _ _)
    (by
      intro b hb
      unfold readBytes at hb
      simp only [List.mem_map, List.mem_range] at hb
      obtain ⟨i, -, rfl⟩ := hb
      exact hbytes _)
    (by rw [hsz]; omega)
    (by rw [hdec1]; exact hdec)
    (by rw [htg]; exact hb0)
    (by rw [htg]; exact hrel)
    hcaveW hrem
  rw [htg, hsz] at hres
  exact hres

/-- A concrete hookable hook object for the round-trip run. -/
def hkC1 : HookSt :=
  { target := 4096, size := 5, installed := false, trampoline := 0,
    originalBytes := none, usercodeJump := none, codecave := none }

/-- A concrete machine for the round-trip run: an executable page at the
target whose first instruction is a near jump, a writable process heap
at 70000, one allocatable page at 8192, and the rel32-faithful
decoder. -/
def machC1 : Machine :=
  { mem := fun a => if a = 4096 then 233 else 144,
    prot := fun a => if a = 70000 then PAGE_READWRITE else PAGE_EXECUTE_READ,
    allocated := fun _ => false, clock := 0,
    vpFail := fun _ => false,
    allocAt := fun k => if k = 1 then some 8192 else none,
    freeOk := fun _ => true, decoder := simpleDecoder,
    heapAddr := 70000, termJmp := [], relayBytes := [] }

/-- C1 (witness): the concrete round trip — the install run succeeds,
the remove run on its outputs succeeds, and the five target bytes come
back to their pre-install values. -/
theorem C1_install_remove_roundtrip_witness :
    install machC1 hkC1 =
      .result none (outMach (install machC1 hkC1)) (outHook (install machC1 hkC1)) ∧
    remove (outMach (install machC1 hkC1)) (outHook (install machC1 hkC1)) =
      (none,
        (remove (outMach (install machC1 hkC1)) (outHook (install machC1 hkC1))).2.1,
        (remove (outMach (install machC1 hkC1)) (outHook (install machC1 hkC1))).2.2) ∧
    readBytes
      ((remove (outMach (install machC1 hkC1)) (outHook (install machC1 hkC1))).2.1).mem
      hkC1.target hkC1.size = readBytes machC1.mem hkC1.target hkC1.size := by
  refine ⟨rfl, rfl, ?_⟩
  exact C1_install_remove_roundtrip machC1 hkC1
    (outMach (install machC1 hkC1)) (outHook (install machC1 hkC1))
    ((remove (outMach (install machC1 hkC1)) (outHook (install machC1 hkC1))).2.1)
    ((remove (outMach (install machC1 hkC1)) (outHook (install machC1 hkC1))).2.2)
    rfl rfl rfl (by decide) (by decide)
    (by
      intro x
      show (if x = 4096 then 233 else 144) < 256
      split_ifs <;> omega)
    (by exact simpleDecoder_rel)
    (by
      intro bs
      show (simpleDecoder bs).length ≤ 15
      unfold simpleDecoder
      split_ifs <;> (dsimp only; omega))
    (by
      intro c hc i j hi hj
      have h0 : machC1.allocAt (machC1.clock + 1) = some 8192 := rfl
      have h8 := h0.symm.trans hc
      injection h8 with h8
      subst h8
      have h1 : 4096 + hkC1.size + 19 + machC1.termJmp.length +
          machC1.relayBytes.length = 4120 := rfl
      rw [h1] at hj
      have h2 : hkC1.size + 15 = 20 := rfl
      rw [h2] at hi
      show (hkC1.target + i) % W ≠ (8192 % W + j) % W
      have h3 : hkC1.target = 4096 := rfl
      rw [h3]
      unfold W
      omega)
    rfl rfl

/-! ## Claim C7 -/

/-- A hook whose target sits five bytes below the top of the 32-bit
address space, so the `0x90` fill destination `target + 5` wraps to the
invalid address `0`. -/
def hkC7 : HookSt :=
  { target := 4294967291, size := 7, installed := false, trampoline := 0,
    originalBytes := none, usercodeJump := none, codecave := none }

/-- The machine for the failing-fill run: executable pages, a near jump
at the target, one allocatable page at 8192, writable heap at 70000. -/
def machC7 : Machine :=
  { mem := fun a => if a = 4294967291 then 233 else 7,
    prot := fun a => if a = 70000 then PAGE_READWRITE else PAGE_EXECUTE_READ,
    allocated := fun _ => false, clock := 0,
    vpFail := fun _ => false,
    allocAt := fun k => if k = 1 then some 8192 else none,
    freeOk := fun _ => true, decoder := simpleDecoder,
    heapAddr := 70000, termJmp := [], relayBytes := [] }

/-- C7 (counterexample): an install in which the `0x90` fill of
`target[5..L)` fails (its destination `target + 5` wraps to the invalid
address `0`), yet `install()` returns success and the fill region keeps
its old bytes — the result of `llmo::fill` is never checked, so a
failing fill does not cause the `WriteMemory` error the claim
promises. -/
theorem C7_counterexample :
    install machC7 hkC7 =
      .result none (outMach (install machC7 hkC7)) (outHook (install machC7 hkC7)) ∧
    5 < hkC7.size ∧
    (hkC7.target + 5) % W = 0 ∧
    (outMach (install machC7 hkC7)).mem ((hkC7.target + 5) % W) ≠ 144 ∧
    (outMach (install machC7 hkC7)).mem ((hkC7.target + 6) % W) ≠ 144 :=
  ⟨rfl, by decide, by decide, by decide, by decide⟩

/-- C7 (amended): in the target rewrite step of `install()`, the opcode
write at `target[0]` and the rel32 write at `target[1..5]` are issued
without their own unprotect pass, so they rely on the active scoped
`ReadWriteExecute` protection — under it they cannot fail and the step
succeeds whatever the `0x90` fill does; when the rel32 write fails the
step returns `WriteMemory`, and when the opcode write fails (target
byte not `0xE8`) the step returns `WriteMemory`.  The `0x90` fill's
result, however, is ignored: a successful rel32 write yields success
regardless of the fill. -/
theorem C7_target_rewrite_step (m : Machine) (g : ScopedProtect) (h : HookSt)
    (cave : Nat)
    (ht : h.target % W ≠ 0) (hW5 : h.target % W + 5 < W)
    (hprot : ∀ i, i < 5 → m.prot ((h.target + i) % W) = PAGE_EXECUTE_READWRITE) :
    (installTail m g h cave).1 = none ∧
    (∀ m' : Machine, ((write32Op m' (h.target + 1)
        (get_relative_address cave h.target 5) false).2).isSome = true →
      (installWriteRel m' g h cave).1 = some .WriteMemoryError) ∧
    (∀ m' : Machine,
      ((readByteOp m' h.target false).2).toOption ≠ some 232 →
      ((writeByteOp m' h.target 233 false).2).isSome = true →
      (installTail m' g h cave).1 = some .WriteMemoryError) ∧
    (∀ m' : Machine, (write32Op m' (h.target + 1)
        (get_relative_address cave h.target 5) false).2 = none →
      (installWriteRel m' g h cave).1 = none) := by
  have hne1 : (h.target + 1) % W ≠ 0 := by
    rw [add_mod_comm_left _ _ (by unfold W; omega), Nat.mod_eq_of_lt (by omega)]
    omega
  have hw0 : m.prot (h.target % W) = 64 := by
    have h0 := hprot 0 (by omega)
    rw [Nat.add_zero] at h0
    exact h0
  refine ⟨?_, ?_, ?_, ?_⟩
  · by_cases hb : ((readByteOp m h.target false).2).toOption = some 232
    · simp only [installTail, if_pos hb, installWriteRel]
      rw [write32Op_false_ok _ _ _ hne1
        (is_writeable_of_prot _ _ (Or.inr (by exact hprot 1 (by omega))))]
      simp
    · simp only [installTail, if_neg hb]
      rw [writeByteOp_false_ok _ _ _ ht
        (is_writeable_of_prot _ _ (Or.inr hw0))]
      simp only [installWriteRel]
      rw [write32Op_false_ok _ _ _ hne1
        (is_writeable_of_prot _ _ (Or.inr (by exact hprot 1 (by omega))))]
      simp
  · intro m' hw32
    simp only [installWriteRel]
    rw [if_pos hw32]
  · intro m' hb hwb
    simp only [installTail, if_neg hb]
    rw [if_pos hwb]
  · intro m' hw32
    simp only [installWriteRel]
    rw [hw32]
    simp

/-- A machine whose pages are all `PAGE_EXECUTE_READWRITE`, the state of
the target range while the install guard is active. -/
def machRWXall : Machine := { mach0 with prot := fun _ => PAGE_EXECUTE_READWRITE }

/-- C7 (witness): on a concrete machine whose pages carry the guard's
`PAGE_EXECUTE_READWRITE`, the target rewrite step succeeds. -/
theorem C7_target_rewrite_step_witness :
    (installTail machRWXall ⟨4096, 5, protection.ReadExecute⟩ hkC1 8192).1 = none :=
  (C7_target_rewrite_step machRWXall ⟨4096, 5, protection.ReadExecute⟩ hkC1 8192
    (by decide) (by decide) (fun _ _ => rfl)).1

/-! ## Claim C4 -/

/-- An installed hook with its snapshot and codecave, as `install()`
leaves it. -/
def hookC4 : HookSt :=
  { target := 4096, size := 5, installed := true, trampoline := 8197,
    originalBytes := some [1, 2, 3, 4, 5], usercodeJump := none,
    codecave := some (8192, 10) }

/-- The machine for the failing-`VirtualFree` run: the target carries
the patched `E9` + rel32 to the codecave at 8192, and every
`VirtualFree` call fails. -/
def machC4 : Machine :=
  { mem := fun a =>
      if a = 4096 then 233 else if a = 4097 then 251
      else if a = 4098 then 15 else if a = 4099 then 0
      else if a = 4100 then 0 else 7,
    prot := fun a => if a = 70000 then PAGE_READWRITE else PAGE_EXECUTE_READ,
    allocated := fun x => if x = 8192 then true else false, clock := 0,
    vpFail := fun _ => false,
    allocAt := fun _ => none,
    freeOk := fun _ => false, decoder := simpleDecoder,
    heapAddr := 70000, termJmp := [], relayBytes := [] }

/-- C4 (counterexample): when `VirtualFree` fails during hard removal,
`remove()` returns `DeallocateCodecave` — but only after the original
bytes have already been copied back over the target, while the hook
object is returned unchanged: still `installed = true`, still holding
its snapshot and codecave.  A caller that checks the returned error
observes torn state: the target no longer carries the patch although
the hook claims it does, refuting "no torn intermediate state is
observable". -/
theorem C4_counterexample :
    (remove machC4 hookC4).1 = some .DeallocateCodecaveError ∧
    (remove machC4 hookC4).2.2 = hookC4 ∧
    hookC4.installed = true ∧
    hookC4.originalBytes = some [1, 2, 3, 4, 5] ∧
    readBytes ((remove machC4 hookC4).2.1).mem hookC4.target hookC4.size =
      [1, 2, 3, 4, 5] ∧
    readBytes machC4.mem hookC4.target hookC4.size ≠ [1, 2, 3, 4, 5] :=
  ⟨rfl, rfl, rfl, rfl, by decide, by decide⟩

/-- C4 (amended): error returns of `remove()` are not atomic.  On the
hard-removal path with a patched target, when every precondition holds
but `VirtualFree` fails, `remove()` returns `DeallocateCodecave` with
the snapshot already restored over `target[0..L)` and the hook fields
untouched (`installed`, the snapshot and the codecave all kept), so the
returned state is torn: the target bytes are fully original while the
hook still reports the patch in place. -/
theorem C4_error_atomicity (m1 : Machine) (h1 : HookSt)
    (cave clen : Nat) (snap : List Nat)
    (hin1 : h1.installed = true) (ht1 : h1.target % W ≠ 0)
    (hcc1 : h1.codecave = some (cave, clen))
    (hob1 : h1.originalBytes = some snap)
    (hsnaplen : snap.length = h1.size) (hsnapb : ∀ b ∈ snap, b < 256)
    (hsz0 : 0 < h1.size) (hszW : h1.size ≤ W)
    (hheap : m1.heapAddr % W ≠ 0)
    (hdec : RelDecoder m1.decoder)
    (hb0 : m1.mem (h1.target % W) = 232 ∨ m1.mem (h1.target % W) = 233)
    (hrel : ∀ i, 1 ≤ i → i < 5 → m1.mem ((h1.target + i) % W) =
      (le32 (get_relative_address cave h1.target 5)).getD (i - 1) 0)
    (hcaveW : cave < W)
    (hvp : m1.vpFail m1.clock = false)
    (hpn : to_protection_constant (m1.prot (h1.target % W)) ≠ protection.None)
    (hfree : m1.freeOk (m1.clock + 1) = false) :
    (remove m1 h1).1 = some .DeallocateCodecaveError ∧
    (remove m1 h1).2.2 = h1 ∧
    readBytes ((remove m1 h1).2.1).mem h1.target h1.size = snap := by
  have hbs_len : (readBytes m1.mem h1.target 15).length = 15 :=
    readBytes_length _ _ _
  have hbs0 : (readBytes m1.mem h1.target 15).getD 0 0 = m1.mem (h1.target % W) := by
    rw [readBytes_getD _ _ _ 0 (by omega)]
    simp
  obtain ⟨hcount, hisrel, habs⟩ := hdec _ hbs_len (by rw [hbs0]; exact hb0)
  have hbsk : ∀ k < 15, (readBytes m1.mem h1.target 15).getD k 0 =
      m1.mem ((h1.target + k) % W) := fun k hk => readBytes_getD _ _ _ k hk
  have hdropk : ∀ i < 14, ((readBytes m1.mem h1.target 15).drop 1).getD i 0 =
      (readBytes m1.mem h1.target 15).getD (i + 1) 0 := by
    intro i hi
    simp only [List.getD]
    rw [List.get?_drop, Nat.add_comm 1 i]
  have hdrop : le32val ((readBytes m1.mem h1.target 15).drop 1) =
      get_relative_address cave h1.target 5 := by
    unfold le32val
    rw [hdropk 0 (by omega), hdropk 1 (by omega), hdropk 2 (by omega),
      hdropk 3 (by omega), hbsk 1 (by omega), hbsk 2 (by omega),
      hbsk 3 (by omega), hbsk 4 (by omega),
      hrel 1 (by omega) (by omega), hrel 2 (by omega) (by omega),
      hrel 3 (by omega) (by omega), hrel 4 (by omega) (by omega)]
    have h5 : le32val (le32 (get_relative_address cave h1.target 5)) =
        get_relative_address cave h1.target 5 % W :=
      le32val_le32 _
    unfold le32val at h5
    simp only [List.getD] at h5 ⊢
    rw [h5]
    exact Nat.mod_eq_of_lt (subW_lt _ _)
  have hdest : (m1.decoder (readBytes m1.mem h1.target 15)).absA h1.target 0 % W =
      cave % W := by
    rw [habs h1.target, hdrop]
    rw [Nat.mod_mod_of_dvd _ (dvd_refl W)]
    exact restore_rel cave h1.target
  have hgv : (ScopedProtect.mk h1.target h1.size
      (to_protection_constant (m1.prot (h1.target % W)))).valid = true := by
    simp [ScopedProtect.valid, ht1, hpn]
  have hwrit : is_writeable
      { m1 with
          clock := m1.clock + 1
          prot := wrRange m1.prot h1.target h1.size
            (from_protection_constant .ReadWriteExecute) } h1.target = true := by
    apply is_writeable_of_prot
    right
    have h0 := guard_prot_rwx m1.prot h1.target h1.size 0 hsz0 hszW
    rw [Nat.add_zero] at h0
    exact h0
  unfold remove
  rw [if_neg (by simp [hin1]), if_neg ht1, scopedAcquire_ok _ _ _ _ ht1 hvp]
  simp only [hgv, Bool.not_true, Bool.false_eq_true, if_false, hcc1,
    Option.getD_some, disassemble]
  rw [findFirstRel_zero _ hcount hisrel]
  dsimp only
  rw [if_pos (Or.inl hdest)]
  simp only [unloadHook, hob1, Option.getD_some]
  rw [copyHeapToMem_false_ok _ _ _ _ (by omega) ht1 (by exact hheap) hwrit]
  dsimp only
  rw [if_neg (by simp)]
  rw [deallocate_fail _ _ (by exact hfree)]
  rw [if_pos (by simp)]
  refine ⟨rfl, rfl, ?_⟩
  simp only [scopedRelease_mem]
  exact readBytes_wrBytes_pad m1.mem h1.target snap h1.size hsnaplen hsnapb hszW

/-- C4 (witness): the concrete failing-`VirtualFree` removal — the
error comes back with the target already restored and the hook
unchanged. -/
theorem C4_error_atomicity_witness :
    (remove machC4 hookC4).1 = some .DeallocateCodecaveError ∧
    (remove machC4 hookC4).2.2 = hookC4 ∧
    readBytes ((remove machC4 hookC4).2.1).mem hookC4.target hookC4.size =
      [1, 2, 3, 4, 5] :=
  C4_error_atomicity machC4 hookC4 8192 10 [1, 2, 3, 4, 5]
    rfl (by decide) rfl rfl (by decide) (by decide) (by decide) (by decide)
    (by decide) (by exact simpleDecoder_rel) (by decide)
    (by intro i h1i h5i; interval_cases i <;> decide)
    (by decide) rfl (by decide) rfl

/-! ## Claim C5 -/

/-- C5 (amended): a fresh install on a target always makes the new hook
the outermost link in the sense that its own rel32 replaces
`target[1..5]` and leads to its own codecave — but the new hook's
trampoline field is the previously patched destination only when the
byte at the target reads exactly `0xE8` (a near CALL): the code never
tests for the `0xE9` it itself writes, so on top of an existing hook
(target byte `0xE9`) the new trampoline field is the hook's own
codecave entry `cave + 5`, not the previous outermost hook's entry. -/
theorem C5_outermost_link (m : Machine) (hk : HookSt) (m1 : Machine) (h1 : HookSt)
    (hin : hk.installed = false) (hcc : hk.codecave = none)
    (hor : hk.originalBytes = none)
    (ht : hk.target % W ≠ 0)
    (hWtn : hk.target % W + hk.size + 15 < W)
    (hlen : ∀ bs, (m.decoder bs).length ≤ 15)
    (hdisj : ∀ c, m.allocAt (m.clock + 1) = some c →
      ∀ i j, i < hk.size + 15 →
        j < 4096 + hk.size + 19 + m.termJmp.length + m.relayBytes.length →
        (hk.target + i) % W ≠ (c % W + j) % W)
    (hinst : install m hk = .result none m1 h1) :
    ∃ cave clen,
      h1.codecave = some (cave, clen) ∧ cave < W ∧
      (∀ i, 1 ≤ i → i < 5 → m1.mem ((hk.target + i) % W) =
        (le32 (get_relative_address cave hk.target 5)).getD (i - 1) 0) ∧
      (m1.mem (hk.target % W) = 232 ∨ m1.mem (hk.target % W) = 233) ∧
      h1.trampoline =
        (if m.mem (hk.target % W) = 232 then
          restore_absolute_address (le32val (readBytes m.mem (hk.target + 1) 4))
            hk.target 5
        else (cave + 5) % W) := by
  obtain ⟨cave, clen, -, -, -, hcc1, hcaveW, -, -, -, hb0, hrel, htr⟩ :=
    install_fresh_inv m hk m1 h1 hin hcc hor ht hWtn hlen hdisj hinst
  exact ⟨cave, clen, hcc1, hcaveW, hrel, hb0, htr⟩

/-- The machine for the two-install run: like `machC1` but with two
allocatable pages, one for each install. -/
def machC5 : Machine :=
  { mem := fun a => if a = 4096 then 233 else 144,
    prot := fun a => if a = 70000 then PAGE_READWRITE else PAGE_EXECUTE_READ,
    allocated := fun _ => false, clock := 0,
    vpFail := fun _ => false,
    allocAt := fun k =>
      if k = 1 then some 8192 else if k = 4 then some 16384 else none,
    freeOk := fun _ => true, decoder := simpleDecoder,
    heapAddr := 70000, termJmp := [], relayBytes := [] }

/-- C5 (counterexample): two installs on the same target.  The first
patches the target with `E9 rel32` into its cave at 8192 and records
trampoline 8197 (its own cave entry).  The second install, performed on
the patched target, does not decode the existing patch into its
trampoline: the byte at the target is `0xE9`, not the `0xE8` the code
tests for, so the new hook's trampoline is its own cave entry 16389 —
not the previously outermost hook's entry 8197 as the claim requires. -/
theorem C5_counterexample :
    install machC5 hkC1 =
      .result none (outMach (install machC5 hkC1)) (outHook (install machC5 hkC1)) ∧
    (outHook (install machC5 hkC1)).trampoline = 8197 ∧
    (outMach (install machC5 hkC1)).mem (hkC1.target % W) = 233 ∧
    install (outMach (install machC5 hkC1)) hkC1 =
      .result none (outMach (install (outMach (install machC5 hkC1)) hkC1))
        (outHook (install (outMach (install machC5 hkC1)) hkC1)) ∧
    (outHook (install (outMach (install machC5 hkC1)) hkC1)).trampoline = 16389 ∧
    (16389 : Nat) ≠ 8197 :=
  ⟨rfl, by decide, by decide, rfl, by decide, by decide⟩

/-- C5 (witness): the amended statement at the concrete second install
of the two-install run — the new rel32 leads to the new cave, and since
the target byte is `0xE9`, the trampoline field is the new hook's own
cave entry. -/
theorem C5_outermost_link_witness :
    ∃ cave clen,
      (outHook (install (outMach (install machC5 hkC1)) hkC1)).codecave =
        some (cave, clen) ∧ cave < W ∧
      (∀ i, 1 ≤ i → i < 5 →
        (outMach (install (outMach (install machC5 hkC1)) hkC1)).mem
          ((hkC1.target + i) % W) =
        (le32 (get_relative_address cave hkC1.target 5)).getD (i - 1) 0) ∧
      ((outMach (install (outMach (install machC5 hkC1)) hkC1)).mem
          (hkC1.target % W) = 232 ∨
        (outMach (install (outMach (install machC5 hkC1)) hkC1)).mem
          (hkC1.target % W) = 233) ∧
      (outHook (install (outMach (install machC5 hkC1)) hkC1)).trampoline =
        (if (outMach (install machC5 hkC1)).mem (hkC1.target % W) = 232 then
          restore_absolute_address
            (le32val (readBytes (outMach (install machC5 hkC1)).mem
              (hkC1.target + 1) 4)) hkC1.target 5
        else (cave + 5) % W) :=
  C5_outermost_link (outMach (install machC5 hkC1)) hkC1
    (outMach (install (outMach (install machC5 hkC1)) hkC1))
    (outHook (install (outMach (install machC5 hkC1)) hkC1))
    rfl rfl rfl (by decide) (by decide)
    (by
      intro bs
      show (simpleDecoder bs).length ≤ 15
      unfold simpleDecoder
      split_ifs <;> (dsimp only; omega))
    (by
      intro c hc i j hi hj
      have h0 : (outMach (install machC5 hkC1)).allocAt
          ((outMach (install machC5 hkC1)).clock + 1) = some 16384 := rfl
      have h8 := h0.symm.trans hc
      injection h8 with h8
      subst h8
      have h1 : 4096 + hkC1.size + 19 +
          (outMach (install machC5 hkC1)).termJmp.length +
          (outMach (install machC5 hkC1)).relayBytes.length = 4120 := rfl
      rw [h1] at hj
      have h2 : hkC1.size + 15 = 20 := rfl
      rw [h2] at hi
      show (hkC1.target + i) % W ≠ (16384 % W + j) % W
      have h3 : hkC1.target = 4096 := rfl
      rw [h3]
      unfold W
      omega)
    rfl

end Mywr
